import Mathlib

set_option maxHeartbeats 1000000
set_option maxRecDepth 8192

/-!
Verification development for the sequoia-oss-api crawl/parse/build pipeline.
Each definition is a shallow embedding of the corresponding Python function of
the repository; doc comments name the embedded source file and function.
External collaborators (HTTP transport, the BeautifulSoup HTML parser, the
JSON-Schema engine, `unicodedata`, `hashlib`) are modelled by their documented
contracts: HTML documents appear as their sequence of elements in document
order, fetched bodies and content hashes as explicit function parameters.
-/

/-- Python truthiness of an optional string value: `None` and `""` are falsy,
every other string is truthy. -/
def pyTruthyS : Option String → Bool
  | none => false
  | some s => !(s == "")

/-- The ASCII whitespace class stripped by Python `str.strip()` and matched by
the regex class `\s`.  (The Unicode-only whitespace code points Python also
treats as whitespace do not occur after the ASCII fold in `slugify`, and the
raw labels in this development are ASCII.) -/
def isPyWs (c : Char) : Bool :=
  c == ' ' || c == '\t' || c == '\n' || c == '\r' || c == '\x0b' || c == '\x0c'

/-- Python `str.strip(chars)`: drop characters satisfying `p` from both ends. -/
def stripChar (p : Char → Bool) (l : List Char) : List Char :=
  List.rdropWhile p (List.dropWhile p l)

/-- Python `str.strip()` at the character-list level. -/
def pyStrip (l : List Char) : List Char := stripChar isPyWs l

/-- Python `str.strip()` on strings. -/
def pyStripS (s : String) : String := String.mk (pyStrip s.toList)

/-- Python `str.lower()` restricted to its ASCII action (per-character
lowercasing); the inputs of this development are ASCII. -/
def pyLower (s : String) : String := String.mk (s.toList.map Char.toLower)

/-- Python substring membership `needle in hay` on character lists. -/
def containsSub (needle : List Char) : List Char → Bool
  | [] => needle.isEmpty
  | c :: cs => needle.isPrefixOf (c :: cs) || containsSub needle cs

/-- Python substring membership `n in h` on strings (hay first). -/
def strContains (h n : String) : Bool := containsSub n.toList h.toList

/-- Python `dict.get` over an association list in insertion order. -/
def alGet {α : Type} : List (String × α) → String → Option α
  | [], _ => none
  | (k, v) :: rest, key => if k == key then some v else alGet rest key

/-- Python `dict[key] = v`: replace the value at an existing key in place,
or append a new key at the end. -/
def alSet {α : Type} : List (String × α) → String → α → List (String × α)
  | [], key, v => [(key, v)]
  | (k, w) :: rest, key, v =>
    if k == key then (key, v) :: rest else (k, w) :: alSet rest key v

theorem alGet_alSet_self {α : Type} (l : List (String × α)) (k : String) (v : α) :
    alGet (alSet l k v) k = some v := by
  induction l with
  | nil => simp [alGet, alSet]
  | cons p rest ih =>
    obtain ⟨k', w⟩ := p
    by_cases h : k' == k
    · simp [alSet, h, alGet]
    · simp [alSet, h, alGet, ih]

theorem alGet_alSet_ne {α : Type} (l : List (String × α)) (k k' : String) (v : α)
    (h : k ≠ k') : alGet (alSet l k v) k' = alGet l k' := by
  induction l with
  | nil => simp [alGet, alSet, h]
  | cons p rest ih =>
    obtain ⟨k₀, w⟩ := p
    by_cases h0 : k₀ == k
    · have hk0 : k₀ = k := by simpa using h0
      subst hk0
      simp [alSet, alGet, h]
    · simp [alSet, h0, alGet, ih]

theorem mem_of_alGet_eq_some {α : Type} {l : List (String × α)} {k : String} {v : α}
    (h : alGet l k = some v) : (k, v) ∈ l := by
  induction l with
  | nil => simp [alGet] at h
  | cons p rest ih =>
    obtain ⟨k₀, w⟩ := p
    by_cases h0 : k₀ == k
    · have hk0 : k₀ = k := by simpa using h0
      subst hk0
      simp [alGet] at h
      simp [h]
    · simp [alGet, h0] at h
      exact List.mem_cons_of_mem _ (ih h)

theorem head?_eq_some_mem {α : Type} {l : List α} {a : α} (h : l.head? = some a) :
    a ∈ l := by
  cases l with
  | nil => simp at h
  | cons b t => simp at h; simp [h]

/-! ## src/normalize/stages.py -/

/-- `STAGE_ENUM` of src/normalize/stages.py: the controlled stage vocabulary. -/
def STAGE_ENUM : List String :=
  ["pre-seed-seed", "early", "growth", "ipo", "acquired", "unknown"]

/-- `_RAW_TO_STAGE` of src/normalize/stages.py: known raw labels (lowercased)
to canonical stage ids. -/
def RAW_TO_STAGE : List (String × String) :=
  [("pre-seed/seed", "pre-seed-seed"), ("pre-seed", "pre-seed-seed"),
   ("seed", "pre-seed-seed"),
   ("early", "early"), ("early stage", "early"),
   ("growth", "growth"), ("growth stage", "growth"),
   ("ipo", "ipo"), ("public", "ipo"),
   ("acquired", "acquired"), ("acquisition", "acquired")]

/-- `normalize_stage` of src/normalize/stages.py: canonical stage id for a raw
label; `none` for `None` and for labels that are empty after stripping;
"unknown" for non-empty cleaned labels outside the known mapping. -/
def normalize_stage : Option String → Option String
  | none => none
  | some raw =>
    let cleaned := pyLower (pyStripS raw)
    if cleaned == "" then none
    else some ((alGet RAW_TO_STAGE cleaned).getD "unknown")

theorem rawToStage_values_mem_enum :
    ∀ p ∈ RAW_TO_STAGE, p.2 ∈ STAGE_ENUM := by decide

/-- Every value `normalize_stage` ever produces is `none` or lies in the
stage enumeration (and "" is never produced). -/
theorem normalize_stage_mem_enum (o : Option String) :
    normalize_stage o = none ∨ ∃ s ∈ STAGE_ENUM, normalize_stage o = some s := by
  cases o with
  | none => left; rfl
  | some raw =>
    by_cases h : (pyLower (pyStripS raw) == "")
    · left; simp [normalize_stage, h]
    · right
      refine ⟨(alGet RAW_TO_STAGE (pyLower (pyStripS raw))).getD "unknown", ?_, ?_⟩
      · cases hg : alGet RAW_TO_STAGE (pyLower (pyStripS raw)) with
        | none => simp [Option.getD]; decide
        | some v =>
          have hv := mem_of_alGet_eq_some hg
          have := rawToStage_values_mem_enum _ hv
          simpa [Option.getD] using this
      · simp [normalize_stage, h]

/-- C4 (amended): `normalize_stage` maps `None` and `""` to `None`; every
label whose whitespace-stripped, lowercased form is non-empty and is not a
key of the known mapping maps to "unknown"; and every result is `None` or an
element of the fixed stage enumeration. -/
theorem C4_normalize_stage_contract :
    normalize_stage none = none ∧
    normalize_stage (some "") = none ∧
    (∀ x : String, pyLower (pyStripS x) ≠ "" →
      alGet RAW_TO_STAGE (pyLower (pyStripS x)) = none →
      normalize_stage (some x) = some "unknown") ∧
    (∀ o : Option String, normalize_stage o = none ∨
      ∃ s ∈ STAGE_ENUM, normalize_stage o = some s) := by
  refine ⟨rfl, by decide, ?_, normalize_stage_mem_enum⟩
  intro x hne hget
  have hb : (pyLower (pyStripS x) == "") = false := by
    simpa using hne
  simp [normalize_stage, hb, hget, Option.getD]

/-- C4 (counterexample to the claim as stated): the label `" "` is a
non-empty string that is not in the known mapping, yet `normalize_stage`
returns `None` rather than "unknown"; similarly `" Seed "` is not literally
in the mapping, yet the result is "pre-seed-seed", not "unknown". -/
theorem C4_counterexample :
    (" " : String) ≠ "" ∧ alGet RAW_TO_STAGE " " = none ∧
    normalize_stage (some " ") = none ∧
    (" Seed " : String) ≠ "" ∧ alGet RAW_TO_STAGE " Seed " = none ∧
    normalize_stage (some " Seed ") = some "pre-seed-seed" ∧
    (some "pre-seed-seed" : Option String) ≠ some "unknown" := by
  refine ⟨by decide, by decide, by decide, by decide, by decide, by decide, by decide⟩

/-- Witness for C4: the inner hypotheses discharged at the concrete
unmapped label "mystery-label". -/
theorem C4_witness :
    normalize_stage (some "mystery-label") = some "unknown" :=
  C4_normalize_stage_contract.2.2.1 "mystery-label" (by decide) (by decide)

/-! ## src/normalize/slugify.py -/

/-- Python `.encode("ascii", "ignore").decode("ascii")`: keep only code
points below 128.  The preceding NFKD normalization (external `unicodedata`)
is the identity on the ASCII range; its decomposition of non-ASCII
characters is modelled by the ASCII projection. -/
def asciiIgnore (l : List Char) : List Char := l.filter (fun c => c.toNat ≤ 127)

/-- The character class kept by the removal step `re.sub(r"[^a-z0-9\s-]", "")`. -/
def isKeep (c : Char) : Bool :=
  (97 ≤ c.toNat && c.toNat ≤ 122) || (48 ≤ c.toNat && c.toNat ≤ 57) ||
    c == '-' || isPyWs c

/-- Slug output characters: lowercase ASCII letters, digits and hyphen. -/
def isSlugChar (c : Char) : Bool :=
  (97 ≤ c.toNat && c.toNat ≤ 122) || (48 ≤ c.toNat && c.toNat ≤ 57) || c == '-'

/-- Replace every maximal run of characters satisfying `p` by the single
character `r` — the shape shared by `re.sub(r"[\s]+", "-")` and
`re.sub(r"-+", "-")`.  The flag records being inside a run. -/
def squash (p : Char → Bool) (r : Char) : List Char → Bool → List Char
  | [], _ => []
  | c :: cs, inRun =>
    if p c then
      if inRun then squash p r cs true else r :: squash p r cs true
    else c :: squash p r cs false

/-- `slugify` of src/normalize/slugify.py at the character-list level:
strip whitespace, ASCII fold, lowercase, remove characters outside
`[a-z0-9\s-]`, collapse whitespace runs to "-", collapse "-" runs,
strip "-" from both ends. -/
def slugifyL (l : List Char) : List Char :=
  stripChar (fun c => c == '-')
    (squash (fun c => c == '-') '-'
      (squash isPyWs '-'
        (((asciiIgnore (pyStrip l)).map Char.toLower).filter isKeep) false) false)

/-- `slugify` of src/normalize/slugify.py. -/
def slugify (s : String) : String := String.mk (slugifyL s.toList)

theorem mem_squash {p : Char → Bool} {r c : Char} :
    ∀ {l : List Char} {b : Bool}, c ∈ squash p r l b →
      c = r ∨ (c ∈ l ∧ p c = false) := by
  intro l
  induction l with
  | nil => intro b h; simp [squash] at h
  | cons d cs ih =>
    intro b h
    by_cases hd : p d
    · cases b with
      | true =>
        simp only [squash, hd, if_true] at h
        rcases ih h with h1 | h2
        · exact Or.inl h1
        · exact Or.inr ⟨List.mem_cons_of_mem _ h2.1, h2.2⟩
      | false =>
        simp only [squash, hd, if_true, if_false] at h
        rcases List.mem_cons.mp h with h1 | h1
        · exact Or.inl h1
        · rcases ih h1 with h2 | h3
          · exact Or.inl h2
          · exact Or.inr ⟨List.mem_cons_of_mem _ h3.1, h3.2⟩
    · have hd' : p d = false := by simpa using hd
      simp only [squash, hd', if_false, Bool.false_eq_true] at h
      rcases List.mem_cons.mp h with h1 | h1
      · exact Or.inr ⟨by simp [h1], by simpa [h1] using hd'⟩
      · rcases ih h1 with h2 | h3
        · exact Or.inl h2
        · exact Or.inr ⟨List.mem_cons_of_mem _ h3.1, h3.2⟩

theorem squash_head_not {p : Char → Bool} {r c : Char} :
    ∀ {l : List Char}, (squash p r l true).head? = some c → p c = false := by
  intro l
  induction l with
  | nil => intro h; simp [squash] at h
  | cons d cs ih =>
    intro h
    by_cases hd : p d
    · simp only [squash, hd, if_true] at h
      exact ih h
    · have hd' : p d = false := by simpa using hd
      simp only [squash, hd', Bool.false_eq_true, if_false, List.head?_cons,
        Option.some.injEq] at h
      subst h
      exact hd'

theorem chain'_squash {p : Char → Bool} {r : Char} :
    ∀ (l : List Char) (b : Bool),
      List.Chain' (fun a b => ¬(p a = true ∧ p b = true)) (squash p r l b) := by
  intro l
  induction l with
  | nil => intro b; simp [squash]
  | cons d cs ih =>
    intro b
    by_cases hd : p d
    · cases b with
      | true => simpa [squash, hd] using ih true
      | false =>
        simp only [squash, hd, if_true, if_false]
        refine List.chain'_cons'.mpr ⟨?_, ih true⟩
        intro y hy
        have := squash_head_not hy
        intro hcon
        rw [this] at hcon
        exact absurd hcon.2 (by simp)
    · have hd' : p d = false := by simpa using hd
      simp only [squash, hd', Bool.false_eq_true, if_false]
      refine List.chain'_cons'.mpr ⟨?_, ih false⟩
      intro y hy hcon
      rw [hd'] at hcon
      exact absurd hcon.1 (by simp)

theorem squash_eq_self_of_none {p : Char → Bool} {r : Char} :
    ∀ {l : List Char}, (∀ c ∈ l, p c = false) → squash p r l false = l := by
  intro l
  induction l with
  | nil => intro _; rfl
  | cons d cs ih =>
    intro h
    have hd := h d (by simp)
    simp only [squash, hd, Bool.false_eq_true, if_false]
    rw [ih (fun c hc => h c (List.mem_cons_of_mem _ hc))]

theorem squash_eq_self_of_chain {p : Char → Bool} {r : Char}
    (hcr : ∀ c, p c = true → c = r) :
    ∀ {l : List Char},
      List.Chain' (fun a b => ¬(p a = true ∧ p b = true)) l →
      squash p r l false = l ∧
        ((∀ c, l.head? = some c → p c = false) → squash p r l true = l) := by
  intro l
  induction l with
  | nil => intro _; exact ⟨rfl, fun _ => rfl⟩
  | cons d cs ih =>
    intro hch
    have hch' := List.chain'_cons'.mp hch
    obtain ⟨ihf, iht⟩ := ih hch'.2
    by_cases hd : p d
    · have hdr : d = r := hcr d (by simpa using hd)
      have hcs : ∀ c, cs.head? = some c → p c = false := by
        intro c hc
        have := hch'.1 c hc
        by_contra hpc
        exact this ⟨by simpa using hd, by simpa using hpc⟩
      constructor
      · simp only [squash, hd, if_true, Bool.false_eq_true, if_false]
        rw [iht hcs, ← hdr]
      · intro hhead
        have := hhead d (by simp)
        rw [this] at hd
        simp at hd
    · have hd' : p d = false := by simpa using hd
      constructor
      · simp only [squash, hd', Bool.false_eq_true, if_false]
        rw [ihf]
      · intro _
        simp only [squash, hd', Bool.false_eq_true, if_false]
        rw [ihf]

theorem head?_dropWhile_not {p : Char → Bool} {c : Char} :
    ∀ {l : List Char}, (List.dropWhile p l).head? = some c → p c = false := by
  intro l
  induction l with
  | nil => intro h; simp at h
  | cons d cs ih =>
    intro h
    by_cases hd : p d
    · rw [List.dropWhile_cons, if_pos (by simpa using hd)] at h
      exact ih h
    · rw [List.dropWhile_cons, if_neg (by simpa using hd)] at h
      simp at h
      subst h
      simpa using hd

theorem head?_of_rdropWhile {p : Char → Bool} {c : Char} {m : List Char}
    (h : (List.rdropWhile p m).head? = some c) : m.head? = some c := by
  obtain ⟨t, ht⟩ := List.rdropWhile_prefix p m
  cases hr : List.rdropWhile p m with
  | nil => rw [hr] at h; simp at h
  | cons d ds =>
    rw [hr] at h ht
    simp at h
    subst h
    rw [← ht]
    rfl

theorem getLast?_rdropWhile_not {p : Char → Bool} {c : Char} {m : List Char}
    (h : (List.rdropWhile p m).getLast? = some c) : p c = false := by
  rw [List.rdropWhile] at h
  rw [List.getLast?_reverse] at h
  exact head?_dropWhile_not h

theorem stripChar_head_not {p : Char → Bool} {c : Char} {l : List Char}
    (h : (stripChar p l).head? = some c) : p c = false :=
  head?_dropWhile_not (head?_of_rdropWhile h)

theorem stripChar_getLast_not {p : Char → Bool} {c : Char} {l : List Char}
    (h : (stripChar p l).getLast? = some c) : p c = false :=
  getLast?_rdropWhile_not h

theorem stripChar_subset {p : Char → Bool} {l : List Char} :
    stripChar p l ⊆ l := by
  intro c hc
  have h1 : c ∈ List.dropWhile p l := by
    obtain ⟨t, ht⟩ := List.rdropWhile_prefix p (List.dropWhile p l)
    rw [← ht]
    exact List.mem_append_left _ hc
  exact (List.dropWhile_sublist p).subset h1

theorem chain'_stripChar {R : Char → Char → Prop} {p : Char → Bool} {l : List Char}
    (h : List.Chain' R l) : List.Chain' R (stripChar p l) := by
  have hinf : stripChar p l <:+: l :=
    List.infix_iff_prefix_suffix.mpr
      ⟨List.dropWhile p l, List.rdropWhile_prefix p _, List.dropWhile_suffix p⟩
  exact List.Chain'.infix h hinf

theorem dropWhile_eq_self_of_head {p : Char → Bool} {l : List Char}
    (h : ∀ c, l.head? = some c → p c = false) : List.dropWhile p l = l := by
  cases l with
  | nil => rfl
  | cons d cs =>
    have := h d (by simp)
    rw [List.dropWhile_cons, if_neg (by simp [this])]

theorem rdropWhile_eq_self_of_last {p : Char → Bool} {l : List Char}
    (h : ∀ c, l.getLast? = some c → p c = false) : List.rdropWhile p l = l := by
  rw [List.rdropWhile]
  rw [dropWhile_eq_self_of_head (by intro c hc; exact h c (by rwa [List.head?_reverse] at hc))]
  exact List.reverse_reverse l

theorem map_eq_self_of_id {f : Char → Char} :
    ∀ {l : List Char}, (∀ c ∈ l, f c = c) → l.map f = l := by
  intro l
  induction l with
  | nil => intro _; rfl
  | cons d cs ih =>
    intro h
    simp only [List.map_cons, h d (by simp), ih (fun c hc => h c (List.mem_cons_of_mem _ hc))]

theorem isSlugChar_bounds {c : Char} (h : isSlugChar c = true) :
    (97 ≤ c.toNat ∧ c.toNat ≤ 122) ∨ (48 ≤ c.toNat ∧ c.toNat ≤ 57) ∨
      c.toNat = 45 := by
  simp only [isSlugChar, Bool.or_eq_true, Bool.and_eq_true, beq_iff_eq,
    decide_eq_true_eq] at h
  rcases h with (⟨h1, h2⟩ | ⟨h1, h2⟩) | h1
  · exact Or.inl ⟨h1, h2⟩
  · exact Or.inr (Or.inl ⟨h1, h2⟩)
  · subst h1; exact Or.inr (Or.inr (by decide))

theorem isSlugChar_not_ws {c : Char} (h : isSlugChar c = true) : isPyWs c = false := by
  by_contra hws
  have hws' : isPyWs c = true := by simpa using hws
  have hb := isSlugChar_bounds h
  simp only [isPyWs, Bool.or_eq_true, beq_iff_eq] at hws'
  rcases hws' with ((((h1 | h1) | h1) | h1) | h1) | h1 <;> subst h1 <;>
    revert hb <;> decide

theorem isSlugChar_ascii {c : Char} (h : isSlugChar c = true) : c.toNat ≤ 127 := by
  rcases isSlugChar_bounds h with ⟨h1, h2⟩ | ⟨h1, h2⟩ | h1 <;> omega

theorem isSlugChar_toLower {c : Char} (h : isSlugChar c = true) :
    Char.toLower c = c := by
  have hrange : ¬(c.toNat ≥ 65 ∧ c.toNat ≤ 90) := by
    rcases isSlugChar_bounds h with ⟨h1, h2⟩ | ⟨h1, h2⟩ | h1 <;> omega
  simp only [Char.toLower]
  rw [if_neg hrange]

theorem isSlugChar_keep {c : Char} (h : isSlugChar c = true) : isKeep c = true := by
  simp only [isSlugChar, Bool.or_eq_true] at h
  simp only [isKeep, Bool.or_eq_true]
  tauto


theorem getLast?_eq_some_mem {α : Type} {l : List α} {a : α}
    (h : l.getLast? = some a) : a ∈ l := by
  induction l with
  | nil => simp at h
  | cons b t ih =>
    cases t with
    | nil => simp at h; simp [h]
    | cons c u =>
      rw [List.getLast?_cons_cons] at h
      exact List.mem_cons_of_mem _ (ih h)

theorem isKeep_not_ws_slug {c : Char} (hk : isKeep c = true)
    (hw : isPyWs c = false) : isSlugChar c = true := by
  simp only [isKeep, Bool.or_eq_true] at hk
  simp only [isSlugChar, Bool.or_eq_true]
  rcases hk with ((h | h) | h) | h
  · exact Or.inl (Or.inl h)
  · exact Or.inl (Or.inr h)
  · exact Or.inr h
  · rw [hw] at h; exact absurd h (by simp)

/-- Shape invariant of slugify output: slug characters only, no hyphen at
either end, no doubled hyphen. -/
def SlugShaped (m : List Char) : Prop :=
  (∀ c ∈ m, isSlugChar c = true) ∧
  (∀ c, m.head? = some c → c ≠ '-') ∧
  (∀ c, m.getLast? = some c → c ≠ '-') ∧
  List.Chain' (fun a b => ¬(a = '-' ∧ b = '-')) m

theorem slugifyL_shaped (l : List Char) : SlugShaped (slugifyL l) := by
  refine ⟨?_, ?_, ?_, ?_⟩
  · intro c hc
    have hc6 := stripChar_subset hc
    rcases mem_squash hc6 with h | ⟨hc5, hne⟩
    · subst h; decide
    · rcases mem_squash hc5 with h | ⟨hc4, hws⟩
      · subst h; decide
      · have := List.mem_filter.mp hc4
        exact isKeep_not_ws_slug this.2 hws
  · intro c hc
    have := stripChar_head_not hc
    simpa using this
  · intro c hc
    have := stripChar_getLast_not hc
    simpa using this
  · have hch := @chain'_squash (fun c => c == '-') '-'
      (squash isPyWs '-'
        (((asciiIgnore (pyStrip l)).map Char.toLower).filter isKeep) false)
      false
    have hch' := @List.Chain'.imp Char
      (fun a b => ¬((a == '-') = true ∧ (b == '-') = true))
      (fun a b => ¬(a = '-' ∧ b = '-'))
      (fun a b hab hcon => hab ⟨by simp [hcon.1], by simp [hcon.2]⟩) _ hch
    exact chain'_stripChar hch'

theorem slugifyL_eq_self_of_shaped {m : List Char} (h : SlugShaped m) :
    slugifyL m = m := by
  obtain ⟨hmem, hhead, hlast, hchain⟩ := h
  have hs1 : pyStrip m = m := by
    rw [pyStrip, stripChar]
    rw [dropWhile_eq_self_of_head
      (fun c hc => isSlugChar_not_ws (hmem c (head?_eq_some_mem hc)))]
    exact rdropWhile_eq_self_of_last
      (fun c hc => isSlugChar_not_ws (hmem c (getLast?_eq_some_mem hc)))
  have hs2 : asciiIgnore m = m := by
    rw [asciiIgnore, List.filter_eq_self.mpr]
    intro c hc
    exact decide_eq_true (isSlugChar_ascii (hmem c hc))
  have hs3 : m.map Char.toLower = m :=
    map_eq_self_of_id (fun c hc => isSlugChar_toLower (hmem c hc))
  have hs4 : m.filter isKeep = m :=
    List.filter_eq_self.mpr (fun c hc => isSlugChar_keep (hmem c hc))
  have hs5 : squash isPyWs '-' m false = m :=
    squash_eq_self_of_none (fun c hc => isSlugChar_not_ws (hmem c hc))
  have hchain' : List.Chain'
      (fun a b => ¬((fun c => c == '-') a = true ∧ (fun c => c == '-') b = true)) m := by
    refine List.Chain'.imp ?_ hchain
    intro a b hab hcon
    exact hab ⟨by simpa using hcon.1, by simpa using hcon.2⟩
  have hs6 : squash (fun c => c == '-') '-' m false = m :=
    (squash_eq_self_of_chain (fun c hc => by simpa using hc) hchain').1
  have hs7 : stripChar (fun c => c == '-') m = m := by
    rw [stripChar]
    rw [dropWhile_eq_self_of_head
      (fun c hc => by simpa using hhead c hc)]
    exact rdropWhile_eq_self_of_last
      (fun c hc => by simpa using hlast c hc)
  rw [slugifyL, hs1, hs2, hs3, hs4, hs5, hs6, hs7]

/-- C5: `slugify` is idempotent, and its output consists only of lowercase
ASCII letters, digits and hyphens, with no leading hyphen, no trailing
hyphen, and no two consecutive hyphens. -/
theorem C5_slugify_idempotent_and_shaped (x : String) :
    slugify (slugify x) = slugify x ∧
    (∀ c ∈ (slugify x).toList, isSlugChar c = true) ∧
    (slugify x).toList.head? ≠ some '-' ∧
    (slugify x).toList.getLast? ≠ some '-' ∧
    List.Chain' (fun a b => ¬(a = '-' ∧ b = '-')) (slugify x).toList := by
  have hs := slugifyL_shaped x.toList
  obtain ⟨hmem, hhead, hlast, hchain⟩ := hs
  refine ⟨?_, hmem, ?_, ?_, hchain⟩
  · exact congrArg String.mk (slugifyL_eq_self_of_shaped (slugifyL_shaped x.toList))
  · intro hc
    exact hhead '-' hc rfl
  · intro hc
    exact hlast '-' hc rfl

/-! ## HTML document model and src/parse/company.py -/

/-- One HTML element as the company-page parser observes it: tag name,
stripped text (`get_text(strip=True)`), the attributes the parser reads,
CSS classes, the stripped texts of the element's `li` descendants (for
`ul`/`ol` containers, read by `find_all("li")`), and the stripped text of
its first `p` descendant (read by `find("p")`; tree containment is not
otherwise represented in the flat element sequence). -/
structure Elem where
  tag : String
  text : String := ""
  href : Option String := none
  alt : Option String := none
  nameAttr : Option String := none
  propAttr : Option String := none
  contentAttr : Option String := none
  classes : List String := []
  items : List String := []
  firstP : Option String := none
deriving DecidableEq

/-- An HTML document: its elements in document order — the flattening of
the parse tree in the order BeautifulSoup `find_all` / `find_next`
traverse it. -/
abbrev Doc := List Elem

/-- Characters remaining after the first occurrence of `needle`, if any. -/
def dropThroughSub (needle : List Char) : List Char → Option (List Char)
  | [] => if needle.isEmpty then some [] else none
  | c :: cs =>
    if needle.isPrefixOf (c :: cs) then some ((c :: cs).drop needle.length)
    else dropThroughSub needle cs

/-- The string value of a top-level `"title"` key in a brace-free JSON
fragment: the external `json.loads` + `data.get("title")` of
`_extract_name`'s primary strategy, modelled directly for the well-formed
payloads the site emits. -/
def jsonTitle (body : List Char) : Option String :=
  match dropThroughSub ("\"title\"".toList) body with
  | none => none
  | some r1 =>
    match r1.dropWhile isPyWs with
    | ':' :: r2 =>
      match r2.dropWhile isPyWs with
      | '"' :: r3 =>
        let v := r3.takeWhile (fun c => !(c == '"'))
        if v.isEmpty then none else some (String.mk v)
      | _ => none
    | _ => none

/-- `_extract_name`'s primary strategy of src/parse/company.py: the
`analytics.track('Viewed Company', {...})` payload.  The external regular
expression and JSON parsing are modelled by locating the first
`analytics.track(` call, checking the quoted `Viewed Company` event name,
and reading the `"title"` value of the first brace group (the regex
`\{.*?\}` is non-greedy, so the group ends at the first `}`). -/
def analyticsTitle (script : String) : Option String :=
  match dropThroughSub ("analytics.track(".toList) script.toList with
  | none => none
  | some r1 =>
    match r1.dropWhile isPyWs with
    | q :: r2 =>
      if (q == '\'' || q == '"') && ("Viewed Company".toList ++ [q]).isPrefixOf r2 then
        match (r2.drop ("Viewed Company".toList.length + 1)).dropWhile isPyWs with
        | ',' :: r3 =>
          match r3.dropWhile isPyWs with
          | '{' :: r4 => jsonTitle (r4.takeWhile (fun c => !(c == '}')))
          | _ => none
        | _ => none
      else none
    | [] => none

/-- The part of a string before the first `sep` (Python `split(sep)[0]`). -/
def takeBeforeChar (sep : Char) (s : String) : String :=
  String.mk (s.toList.takeWhile (fun c => !(c == sep)))

/-- Python `str.title()` restricted to ASCII: uppercase every letter that
follows a non-letter, lowercase the other letters. -/
def pyTitle (s : String) : String :=
  String.mk (pyTitleAux s.toList false)
where
  pyTitleAux : List Char → Bool → List Char
    | [], _ => []
    | c :: cs, prevAlpha =>
      if c.isAlpha then
        (if prevAlpha then Char.toLower c else Char.toUpper c) :: pyTitleAux cs true
      else c :: pyTitleAux cs false

/-- `_extract_name` of src/parse/company.py: analytics payload title, else
first `img[alt]` with truthy alt, else page title before `|` stripped,
else the title-cased slug. -/
def _extract_name (doc : Doc) (slug : String) : String :=
  let n1 : Option String :=
    doc.findSome? (fun e => if e.tag == "script" then analyticsTitle e.text else none)
  let n2 : Option String :=
    match doc.find? (fun e => e.tag == "img" && e.alt.isSome) with
    | some img => if pyTruthyS img.alt then img.alt else none
    | none => none
  let n3 : Option String :=
    match doc.find? (fun e => e.tag == "title") with
    | some t => if !(t.text == "") then some (pyStripS (takeBeforeChar '|' t.text)) else none
    | none => none
  let n4 : String :=
    pyTitle (String.mk (slug.toList.map (fun c => if c == '-' then ' ' else c)))
  ((n1.or (n2.or n3)).getD n4)

/-- `_extract_description` of src/parse/company.py: first paragraph of the
`div.wysiwyg.wysiwyg--fs-lg` block, else the `meta[name=description]`
content, else the `meta[property=og:description]` content, else `none`. -/
def _extract_description (doc : Doc) : Option String :=
  let d1 : Option String :=
    match doc.find? (fun e => e.tag == "div" && e.classes.contains "wysiwyg" &&
        e.classes.contains "wysiwyg--fs-lg") with
    | some div =>
      match div.firstP with
      | some t => if t == "" then none else some t
      | none => none
    | none => none
  let d2 : Option String :=
    match doc.find? (fun e => e.tag == "meta" && e.nameAttr == some "description") with
    | some m => if pyTruthyS m.contentAttr then some (pyStripS (m.contentAttr.getD "")) else none
    | none => none
  let d3 : Option String :=
    match doc.find? (fun e => e.tag == "meta" && e.propAttr == some "og:description") with
    | some m => if pyTruthyS m.contentAttr then some (pyStripS (m.contentAttr.getD "")) else none
    | none => none
  d1.or (d2.or d3)

/-- The deny-list of `_extract_website` in src/parse/company.py. -/
def SOCIAL_DOMAINS : List String :=
  ["twitter.com", "linkedin.com", "instagram.com", "facebook.com",
   "sequoiacap.com", "youtube.com", "github.com"]

/-- Python `str.startswith` on strings. -/
def startsWithS (s pre : String) : Bool := pre.toList.isPrefixOf s.toList

/-- The acceptance test of `_extract_website` in src/parse/company.py:
href starts with "http", no deny-list domain occurs as a substring of the
href, and the visible text is non-empty, contains a dot, is shorter than
60 characters, does not contain "sequoia" case-insensitively and does not
contain "View". -/
def websiteAccept (href text : String) : Bool :=
  startsWithS href "http" &&
  !(SOCIAL_DOMAINS.any (fun d => strContains href d)) &&
  !(text == "") &&
  strContains text "." &&
  text.toList.length < 60 &&
  !(strContains (pyLower text) "sequoia") &&
  !(strContains text "View")

/-- `_extract_website` of src/parse/company.py: the href of the first
anchor with an href attribute passing `websiteAccept`, else `none`. -/
def _extract_website : Doc → Option String
  | [] => none
  | e :: rest =>
    if e.tag == "a" then
      match e.href with
      | some h => if websiteAccept h e.text then some h else _extract_website rest
      | none => _extract_website rest
    else _extract_website rest

/-- `platform_patterns` of `_extract_socials`, in insertion order. -/
def PLATFORM_PATTERNS : List (String × String) :=
  [("twitter", "twitter.com"), ("linkedin", "linkedin.com"),
   ("instagram", "instagram.com"), ("facebook", "facebook.com"),
   ("youtube", "youtube.com"), ("github", "github.com")]

/-- One anchor of `_extract_socials`: the first platform whose domain
occurs in the href and which is not yet recorded is appended; the inner
loop then breaks. -/
def socialsStep (socials : List (String × String)) (href : String) :
    List (String × String) :=
  match PLATFORM_PATTERNS.find? (fun pd => strContains href pd.2 &&
      (alGet socials pd.1).isNone) with
  | some pd => socials ++ [(pd.1, href)]
  | none => socials

/-- `_extract_socials` of src/parse/company.py. -/
def _extract_socials (doc : Doc) : List (String × String) :=
  doc.foldl (fun socials e =>
    if e.tag == "a" then
      match e.href with
      | some h => socialsStep socials h
      | none => socials
    else socials) []

/-- `_extract_categories` of src/parse/company.py: visible texts of anchors
whose href contains the category-filter marker, deduplicated preserving
first occurrence. -/
def _extract_categories (doc : Doc) : List String :=
  doc.foldl (fun cats e =>
    if e.tag == "a" then
      match e.href with
      | some h =>
        if strContains h "_categories=" then
          (if !(e.text == "") && !(cats.contains e.text) then cats ++ [e.text] else cats)
        else cats
      | none => cats
    else cats) []

def isHeadingTag (t : String) : Bool := t == "h2" || t == "h3" || t == "h4"

/-- `_find_section` of src/parse/company.py, returning the elements after
the first `h2`–`h4` heading whose stripped text equals `headingText`
case-insensitively (`find_next` then searches these). -/
def findSectionRest (doc : Doc) (headingText : String) : Option Doc :=
  match doc with
  | [] => none
  | e :: rest =>
    if isHeadingTag e.tag && pyLower e.text == pyLower headingText then some rest
    else findSectionRest rest headingText

/-- `heading.find_next([...])`: first following element with a tag in the set. -/
def findNextTag (rest : Doc) (tags : List String) : Option Elem :=
  rest.find? (fun e => tags.contains e.tag)

structure Milestones where
  founded_year : Option Nat := none
  partnered_year : Option Nat := none
  ipo_year : Option Nat := none
  acquired_year : Option Nat := none
deriving DecidableEq

/-- The first 4-digit group in a text, as found by `re.search(r"(\d{4})")`:
the leftmost position at which four consecutive digits start. -/
def firstYear : List Char → Option Nat
  | a :: b :: c :: d :: rest =>
    if a.isDigit && b.isDigit && c.isDigit && d.isDigit then
      some ((a.toNat - 48) * 1000 + (b.toNat - 48) * 100 + (c.toNat - 48) * 10 +
        (d.toNat - 48))
    else firstYear (b :: c :: d :: rest)
  | _ => none

/-- One loop iteration of `_extract_milestones`: items without a 4-digit
group are skipped, otherwise the year is assigned to the slot of the first
matching keyword (the `elif` chain), overwriting any earlier value. -/
def stepMilestone (m : Milestones) (text : String) : Milestones :=
  match firstYear text.toList with
  | none => m
  | some year =>
    let lower := pyLower text
    if strContains lower "founded" then { m with founded_year := some year }
    else if strContains lower "partnered" then { m with partnered_year := some year }
    else if strContains lower "ipo" then { m with ipo_year := some year }
    else if strContains lower "acquired" || strContains lower "acquisition" then
      { m with acquired_year := some year }
    else m

/-- The item texts `_extract_milestones` classifies: the `li` texts of the
first `ul`/`ol`/`div` after the Milestones heading, or the block's own text
if that element is a `div`; empty when heading or container is missing. -/
def milestoneItems (doc : Doc) : List String :=
  match findSectionRest doc "Milestones" with
  | none => []
  | some rest =>
    match findNextTag rest ["ul", "ol", "div"] with
    | none => []
    | some container =>
      if container.tag == "ul" || container.tag == "ol" then container.items
      else [container.text]

/-- `_extract_milestones` of src/parse/company.py. -/
def _extract_milestones (doc : Doc) : Milestones :=
  match findSectionRest doc "Milestones" with
  | none => {}
  | some rest =>
    match findNextTag rest ["ul", "ol", "div"] with
    | none => {}
    | some container =>
      (if container.tag == "ul" || container.tag == "ol" then container.items
       else [container.text]).foldl stepMilestone {}

structure TeamMember where
  name : String
  role : Option String := none
deriving DecidableEq

/-- `_extract_team` of src/parse/company.py. -/
def _extract_team (doc : Doc) : List TeamMember :=
  match findSectionRest doc "Team" with
  | none => []
  | some rest =>
    match findNextTag rest ["ul", "ol"] with
    | none => []
    | some container =>
      (container.items.filter (fun n => !(n == ""))).map
        (fun n => { name := n, role := none })

/-- `_extract_partners` of src/parse/company.py. -/
def _extract_partners (doc : Doc) : List String :=
  match (findSectionRest doc "Partners").or (findSectionRest doc "Partner") with
  | none => []
  | some rest =>
    match findNextTag rest ["ul", "ol"] with
    | none => []
    | some container => container.items.filter (fun n => !(n == ""))

/-- One phrasing of `_extract_why_partnered`: text of the first paragraph
after the heading, if both exist. -/
def whyFrom (doc : Doc) (headingText : String) : Option String :=
  match findSectionRest doc headingText with
  | none => none
  | some rest =>
    match findNextTag rest ["p"] with
    | none => none
    | some p => some p.text

/-- `_extract_why_partnered` of src/parse/company.py. -/
def _extract_why_partnered (doc : Doc) : Option String :=
  (whyFrom doc "Why We Partnered").or (whyFrom doc "Why Sequoia Partnered")

/-- Python truthiness of an optional int (`0` and `None` are falsy). -/
def pyTruthyN : Option Nat → Bool
  | none => false
  | some n => !(n == 0)

/-- `_infer_stage` of src/parse/company.py: acquired beats ipo, else none. -/
def _infer_stage (m : Milestones) : Option String :=
  if pyTruthyN m.acquired_year then some "acquired"
  else if pyTruthyN m.ipo_year then some "ipo"
  else none

/-- `normalize_category_id` of src/normalize/categories.py. -/
def normalize_category_id (raw : String) : String := slugify raw

/-- `normalize_partner_id` of src/normalize/partners.py. -/
def normalize_partner_id (raw : String) : String := slugify raw

def DIRECTORY_BASE : String := "https://sequoiacap.com/our-companies/"

def PROFILE_BASE : String := "https://sequoiacap.com/companies/"

structure SourceUrls where
  directory : String
  profile : String
deriving DecidableEq

structure CompanyRecord where
  id : String
  sequoia_id : Option String
  name : String
  slug : String
  description : Option String
  website : Option String
  socials : List (String × String)
  categories : List String
  current_stage : Option String
  first_partnered_year : Option Nat
  partners : List String
  primary_partner : Option String
  milestones : Milestones
  team : List TeamMember
  why_partnered : Option String
  source_urls : SourceUrls
deriving DecidableEq

/-- `parse_company` of src/parse/company.py. -/
def parse_company (slug : String) (doc : Doc) : CompanyRecord :=
  let milestones := _extract_milestones doc
  let category_ids := (_extract_categories doc).map normalize_category_id
  let partner_ids := (_extract_partners doc).map normalize_partner_id
  { id := "sequoia:" ++ slug
    sequoia_id := none
    name := _extract_name doc slug
    slug := slug
    description := _extract_description doc
    website := _extract_website doc
    socials := _extract_socials doc
    categories := category_ids
    current_stage := _infer_stage milestones
    first_partnered_year := milestones.partnered_year
    partners := partner_ids
    primary_partner := match partner_ids with | [] => none | p :: _ => some p
    milestones := milestones
    team := _extract_team doc
    why_partnered := _extract_why_partnered doc
    source_urls := { directory := DIRECTORY_BASE, profile := PROFILE_BASE ++ slug ++ "/" } }

/-- C6: for every slug and document, the parsed record's `primary_partner`
is the first element of its `partners` list when non-empty and null
otherwise; in particular a non-null `primary_partner` is an element of
`partners`. -/
theorem C6_primary_partner_first (slug : String) (doc : Doc) :
    (parse_company slug doc).primary_partner = (parse_company slug doc).partners.head? ∧
    ∀ p, (parse_company slug doc).primary_partner = some p →
      p ∈ (parse_company slug doc).partners := by
  constructor
  · show (match (_extract_partners doc).map normalize_partner_id with
      | [] => none
      | p :: _ => some p) = ((_extract_partners doc).map normalize_partner_id).head?
    cases (_extract_partners doc).map normalize_partner_id <;> rfl
  · intro p
    show (match (_extract_partners doc).map normalize_partner_id with
      | [] => none
      | q :: _ => some q) = some p → p ∈ (_extract_partners doc).map normalize_partner_id
    cases (_extract_partners doc).map normalize_partner_id with
    | nil => intro h; exact absurd h (by simp)
    | cons q t =>
      intro h
      simp only [Option.some.injEq] at h
      subst h
      exact List.mem_cons_self q t

/-- Concrete profile document with a Partners section, for the C6 witness. -/
def exDocC6 : Doc :=
  [{ tag := "h3", text := "Partners" },
   { tag := "ul", items := ["Jane Doe"] }]

/-- Witness for C6: at a concrete document the non-null primary partner is
an element of the partners list. -/
theorem C6_witness :
    "jane-doe" ∈ (parse_company "acme" exDocC6).partners :=
  (C6_primary_partner_first "acme" exDocC6).2 "jane-doe" (by decide)

/-- An item participates in milestone classification only if it has a
4-digit group. -/
def milestoneHasYear (t : String) : Bool := (firstYear t.toList).isSome

/-- Keyword class of the first `if` branch: contains "founded". -/
def clsFounded (t : String) : Bool := strContains (pyLower t) "founded"

/-- Keyword class of the second branch: contains "partnered" but not
"founded" (the `elif` priority). -/
def clsPartnered (t : String) : Bool :=
  !(strContains (pyLower t) "founded") && strContains (pyLower t) "partnered"

/-- Keyword class of the third branch. -/
def clsIpo (t : String) : Bool :=
  !(strContains (pyLower t) "founded") && !(strContains (pyLower t) "partnered") &&
    strContains (pyLower t) "ipo"

/-- Keyword class of the fourth branch. -/
def clsAcquired (t : String) : Bool :=
  !(strContains (pyLower t) "founded") && !(strContains (pyLower t) "partnered") &&
    !(strContains (pyLower t) "ipo") &&
    (strContains (pyLower t) "acquired" || strContains (pyLower t) "acquisition")

/-- Reference value for one milestone slot: the first 4-digit group of the
last item that has a 4-digit group and falls in the keyword class. -/
def lastMatchYear (cls : String → Bool) (items : List String) : Option Nat :=
  ((items.filter (fun t => milestoneHasYear t && cls t)).getLast?).bind
    (fun t => firstYear t.toList)


theorem foldl_step_slot (getSlot : Milestones → Option Nat) (cls : String → Bool)
    (hset : ∀ m t, (milestoneHasYear t && cls t) = true →
      getSlot (stepMilestone m t) = firstYear t.toList)
    (hkeep : ∀ m t, (milestoneHasYear t && cls t) = false →
      getSlot (stepMilestone m t) = getSlot m) :
    ∀ (items : List String) (m : Milestones),
      getSlot (items.foldl stepMilestone m) = (lastMatchYear cls items).or (getSlot m) := by
  intro items
  induction items with
  | nil => intro m; simp [lastMatchYear, Option.or]
  | cons t ts ih =>
    intro m
    rw [List.foldl_cons, ih]
    by_cases hmt : (milestoneHasYear t && cls t) = true
    · have hfcons : (t :: ts).filter (fun u => milestoneHasYear u && cls u) =
          t :: ts.filter (fun u => milestoneHasYear u && cls u) := by
        simp [List.filter_cons, hmt]
      have hy : ∃ y, firstYear t.toList = some y := by
        have h1 : milestoneHasYear t = true := (Bool.and_eq_true_iff.mp hmt).1
        simpa [milestoneHasYear, Option.isSome_iff_exists] using h1
      obtain ⟨y, hy⟩ := hy
      cases hft : ts.filter (fun u => milestoneHasYear u && cls u) with
      | nil =>
        have hlt : lastMatchYear cls ts = none := by
          simp [lastMatchYear, hft]
        rw [hlt, hset m t hmt, hy]
        have hl2 : lastMatchYear cls (t :: ts) = some y := by
          simp only [lastMatchYear, hfcons, hft, List.getLast?_singleton,
            Option.bind_some]
          exact hy
        rw [hl2]
        simp [Option.or]
      | cons u us =>
        have hsome : ((u :: us).getLast?).isSome = true :=
          List.getLast?_isSome.mpr (by simp)
        obtain ⟨v, hv⟩ := Option.isSome_iff_exists.mp hsome
        have hvmem : v ∈ ts.filter (fun w => milestoneHasYear w && cls w) := by
          rw [hft]
          exact getLast?_eq_some_mem hv
        have hvy : ∃ z, firstYear v.toList = some z := by
          have h2 := (List.mem_filter.mp hvmem).2
          have h3 : milestoneHasYear v = true := (Bool.and_eq_true_iff.mp h2).1
          simpa [milestoneHasYear, Option.isSome_iff_exists] using h3
        obtain ⟨z, hz⟩ := hvy
        have hlts : lastMatchYear cls ts = some z := by
          simp only [lastMatchYear, hft, hv, Option.bind_some]
          exact hz
        have hltts : lastMatchYear cls (t :: ts) = some z := by
          simp only [lastMatchYear, hfcons, hft, List.getLast?_cons_cons, hv,
            Option.bind_some]
          exact hz
        rw [hlts, hltts]
        simp [Option.or]
    · have hmt' : (milestoneHasYear t && cls t) = false := by
        simpa using hmt
      have hl3 : lastMatchYear cls (t :: ts) = lastMatchYear cls ts := by
        simp [lastMatchYear, List.filter_cons, hmt']
      rw [hkeep m t hmt', hl3]

theorem step_founded_set (m : Milestones) (t : String)
    (h : (milestoneHasYear t && clsFounded t) = true) :
    (stepMilestone m t).founded_year = firstYear t.toList := by
  cases hfy : firstYear t.toList with
  | none => simp_all [milestoneHasYear]
  | some y =>
    cases hb1 : strContains (pyLower t) "founded" <;>
      simp_all [stepMilestone, milestoneHasYear, clsFounded, String.toList]

theorem step_founded_keep (m : Milestones) (t : String)
    (h : (milestoneHasYear t && clsFounded t) = false) :
    (stepMilestone m t).founded_year = m.founded_year := by
  cases hfy : firstYear t.toList with
  | none => simp [stepMilestone, String.toList, show firstYear t.data = none from hfy]
  | some y =>
    cases hb1 : strContains (pyLower t) "founded" <;>
    cases hb2 : strContains (pyLower t) "partnered" <;>
    cases hb3 : strContains (pyLower t) "ipo" <;>
    cases hb4 : strContains (pyLower t) "acquired" <;>
    cases hb5 : strContains (pyLower t) "acquisition" <;>
      simp_all [stepMilestone, milestoneHasYear, clsFounded, String.toList]

theorem step_partnered_set (m : Milestones) (t : String)
    (h : (milestoneHasYear t && clsPartnered t) = true) :
    (stepMilestone m t).partnered_year = firstYear t.toList := by
  cases hfy : firstYear t.toList with
  | none => simp_all [milestoneHasYear]
  | some y =>
    cases hb1 : strContains (pyLower t) "founded" <;>
    cases hb2 : strContains (pyLower t) "partnered" <;>
      simp_all [stepMilestone, milestoneHasYear, clsPartnered, String.toList]

theorem step_partnered_keep (m : Milestones) (t : String)
    (h : (milestoneHasYear t && clsPartnered t) = false) :
    (stepMilestone m t).partnered_year = m.partnered_year := by
  cases hfy : firstYear t.toList with
  | none => simp [stepMilestone, String.toList, show firstYear t.data = none from hfy]
  | some y =>
    cases hb1 : strContains (pyLower t) "founded" <;>
    cases hb2 : strContains (pyLower t) "partnered" <;>
    cases hb3 : strContains (pyLower t) "ipo" <;>
    cases hb4 : strContains (pyLower t) "acquired" <;>
    cases hb5 : strContains (pyLower t) "acquisition" <;>
      simp_all [stepMilestone, milestoneHasYear, clsPartnered, String.toList]

theorem step_ipo_set (m : Milestones) (t : String)
    (h : (milestoneHasYear t && clsIpo t) = true) :
    (stepMilestone m t).ipo_year = firstYear t.toList := by
  cases hfy : firstYear t.toList with
  | none => simp_all [milestoneHasYear]
  | some y =>
    cases hb1 : strContains (pyLower t) "founded" <;>
    cases hb2 : strContains (pyLower t) "partnered" <;>
    cases hb3 : strContains (pyLower t) "ipo" <;>
      simp_all [stepMilestone, milestoneHasYear, clsIpo, String.toList]

theorem step_ipo_keep (m : Milestones) (t : String)
    (h : (milestoneHasYear t && clsIpo t) = false) :
    (stepMilestone m t).ipo_year = m.ipo_year := by
  cases hfy : firstYear t.toList with
  | none => simp [stepMilestone, String.toList, show firstYear t.data = none from hfy]
  | some y =>
    cases hb1 : strContains (pyLower t) "founded" <;>
    cases hb2 : strContains (pyLower t) "partnered" <;>
    cases hb3 : strContains (pyLower t) "ipo" <;>
    cases hb4 : strContains (pyLower t) "acquired" <;>
    cases hb5 : strContains (pyLower t) "acquisition" <;>
      simp_all [stepMilestone, milestoneHasYear, clsIpo, String.toList]

theorem step_acquired_set (m : Milestones) (t : String)
    (h : (milestoneHasYear t && clsAcquired t) = true) :
    (stepMilestone m t).acquired_year = firstYear t.toList := by
  cases hfy : firstYear t.toList with
  | none => simp_all [milestoneHasYear]
  | some y =>
    cases hb1 : strContains (pyLower t) "founded" <;>
    cases hb2 : strContains (pyLower t) "partnered" <;>
    cases hb3 : strContains (pyLower t) "ipo" <;>
    cases hb4 : strContains (pyLower t) "acquired" <;>
    cases hb5 : strContains (pyLower t) "acquisition" <;>
      simp_all [stepMilestone, milestoneHasYear, clsAcquired, String.toList]

theorem step_acquired_keep (m : Milestones) (t : String)
    (h : (milestoneHasYear t && clsAcquired t) = false) :
    (stepMilestone m t).acquired_year = m.acquired_year := by
  cases hfy : firstYear t.toList with
  | none => simp [stepMilestone, String.toList, show firstYear t.data = none from hfy]
  | some y =>
    cases hb1 : strContains (pyLower t) "founded" <;>
    cases hb2 : strContains (pyLower t) "partnered" <;>
    cases hb3 : strContains (pyLower t) "ipo" <;>
    cases hb4 : strContains (pyLower t) "acquired" <;>
    cases hb5 : strContains (pyLower t) "acquisition" <;>
      simp_all [stepMilestone, milestoneHasYear, clsAcquired, String.toList]

theorem _extract_milestones_eq (doc : Doc) :
    _extract_milestones doc = (milestoneItems doc).foldl stepMilestone {} := by
  unfold _extract_milestones milestoneItems
  cases findSectionRest doc "Milestones" with
  | none => rfl
  | some rest =>
    dsimp only
    cases findNextTag rest ["ul", "ol", "div"] with
    | none => rfl
    | some container => dsimp only

/-- C3 (amended): for every document, each milestone slot holds the first
4-digit group of the LAST item (among the items following the Milestones
heading) that has a 4-digit group and falls in the slot's keyword class —
the classes following the `elif` priority founded > partnered > ipo >
acquired/acquisition; when a document has two items of the same class, the
later one wins. -/
theorem C3_milestones_last_match (doc : Doc) :
    (_extract_milestones doc).founded_year =
      lastMatchYear clsFounded (milestoneItems doc) ∧
    (_extract_milestones doc).partnered_year =
      lastMatchYear clsPartnered (milestoneItems doc) ∧
    (_extract_milestones doc).ipo_year =
      lastMatchYear clsIpo (milestoneItems doc) ∧
    (_extract_milestones doc).acquired_year =
      lastMatchYear clsAcquired (milestoneItems doc) := by
  refine ⟨?_, ?_, ?_, ?_⟩
  · rw [_extract_milestones_eq,
      foldl_step_slot (fun m => m.founded_year) clsFounded step_founded_set
        step_founded_keep (milestoneItems doc) {}]
    cases lastMatchYear clsFounded (milestoneItems doc) <;> rfl
  · rw [_extract_milestones_eq,
      foldl_step_slot (fun m => m.partnered_year) clsPartnered step_partnered_set
        step_partnered_keep (milestoneItems doc) {}]
    cases lastMatchYear clsPartnered (milestoneItems doc) <;> rfl
  · rw [_extract_milestones_eq,
      foldl_step_slot (fun m => m.ipo_year) clsIpo step_ipo_set
        step_ipo_keep (milestoneItems doc) {}]
    cases lastMatchYear clsIpo (milestoneItems doc) <;> rfl
  · rw [_extract_milestones_eq,
      foldl_step_slot (fun m => m.acquired_year) clsAcquired step_acquired_set
        step_acquired_keep (milestoneItems doc) {}]
    cases lastMatchYear clsAcquired (milestoneItems doc) <;> rfl

/-- Concrete document with two "Founded" milestone items, for the C3
counterexample. -/
def exDocC3 : Doc :=
  [{ tag := "h2", text := "Milestones" },
   { tag := "ul", items := ["Founded 2001", "Founded 2005"] }]

/-- C3 (counterexample to the claim as stated): with two items in the
"founded" class, the first matching item carries 2001, yet the parser keeps
2005 — the year of the LAST matching item, because the assignment in the
loop overwrites unconditionally. -/
theorem C3_counterexample :
    milestoneItems exDocC3 = ["Founded 2001", "Founded 2005"] ∧
    firstYear ("Founded 2001" : String).toList = some 2001 ∧
    clsFounded "Founded 2001" = true ∧
    clsFounded "Founded 2005" = true ∧
    (_extract_milestones exDocC3).founded_year = some 2005 ∧
    (some 2005 : Option Nat) ≠ some 2001 := by
  refine ⟨by decide, by decide, by decide, by decide, by decide, by decide⟩

/-- The anchors of a document with their href and visible text, in document
order (`find_all("a", href=True)`). -/
def anchorsOf (doc : Doc) : List (String × String) :=
  doc.filterMap (fun e =>
    if e.tag == "a" then e.href.map (fun h => (h, e.text)) else none)

/-- C8 (amended): `_extract_website` returns the href of the first
hyperlink, in document order, whose href starts with "http" and contains no
deny-list domain as a substring, and whose visible text is non-empty,
contains a dot, is under 60 characters, does not contain "sequoia"
case-insensitively and does not contain "View"; if no hyperlink qualifies
it returns null, first match winning with no ranking among candidates. -/
theorem C8_website_first_match (doc : Doc) :
    _extract_website doc =
      ((anchorsOf doc).find? (fun ht => websiteAccept ht.1 ht.2)).map Prod.fst := by
  induction doc with
  | nil => rfl
  | cons e rest ih =>
    by_cases ha : (e.tag == "a") = true
    · cases hh : e.href with
      | none =>
        have hanch : anchorsOf (e :: rest) = anchorsOf rest := by
          simp [anchorsOf, List.filterMap_cons, hh]
        rw [hanch, ← ih]
        simp [_extract_website, ha, hh]
      | some h =>
        have hanch : anchorsOf (e :: rest) = (h, e.text) :: anchorsOf rest := by
          simp [anchorsOf, List.filterMap_cons, hh,
            show e.tag = "a" from by simpa using ha]
        by_cases hacc : websiteAccept h e.text = true
        · rw [hanch, List.find?_cons_of_pos _ (by simpa using hacc)]
          simp [_extract_website, ha, hh, hacc]
        · rw [hanch, List.find?_cons_of_neg _ (by simpa using hacc), ← ih]
          simp [_extract_website, ha, hh, hacc]
    · have ha' : (e.tag == "a") = false := by simpa using ha
      have hanch : anchorsOf (e :: rest) = anchorsOf rest := by
        simp [anchorsOf, List.filterMap_cons,
          show ¬(e.tag = "a") from by simpa using ha]
      rw [hanch, ← ih]
      simp [_extract_website, ha']

/-- The characters after the first `://`, or the whole string if absent. -/
def dropScheme : List Char → List Char
  | ':' :: '/' :: '/' :: rest => rest
  | _ :: rest => dropScheme rest
  | [] => []

/-- The host part of a URL: the characters after the scheme separator, up
to the first `/`, `?` or `#`. -/
def hostOf (url : String) : String :=
  String.mk ((dropScheme url.toList).takeWhile
    (fun c => !(c == '/') && !(c == '?') && !(c == '#')))

/-- Concrete document for the C8 counterexample: a single qualifying anchor
whose target host is `example.com` but whose query string mentions a
deny-list domain. -/
def exDocC8 : Doc :=
  [{ tag := "a", text := "example.com",
     href := some "https://example.com/a?from=twitter.com" }]

/-- C8 (counterexample to the claim as stated): the anchor's target host is
`example.com`, which is not in the deny-list, and every visible-text
condition of the claim holds, so the claim predicts the href is returned;
the code instead rejects the link — the deny-list is matched against the
whole href as a substring, where `twitter.com` occurs — and returns null. -/
theorem C8_counterexample :
    hostOf "https://example.com/a?from=twitter.com" = "example.com" ∧
    SOCIAL_DOMAINS.contains (hostOf "https://example.com/a?from=twitter.com") = false ∧
    startsWithS "https://example.com/a?from=twitter.com" "http" = true ∧
    ("example.com" : String) ≠ "" ∧
    strContains "example.com" "." = true ∧
    ("example.com" : String).toList.length < 60 ∧
    strContains (pyLower "example.com") "sequoia" = false ∧
    strContains "example.com" "View" = false ∧
    _extract_website exDocC8 = none := by
  refine ⟨by decide, by decide, by decide, by decide, by decide, by decide,
    by decide, by decide, by decide⟩

/-! ## src/parse/directory.py -/

/-- One directory-listing row as `_parse_directory_page` produces it:
`sequoia_id` is the first cell's text or `None` (`sequoia_id or None`, so
never `some ""`), `stage` is `normalize_stage stage_raw` (so never
`some ""` either). -/
structure DirEntry where
  sequoia_id : Option String
  name : String
  stage_raw : String
  stage : Option String
  partners_raw : String
  first_partnered_raw : String
deriving DecidableEq

/-- The loop body of `merge_directory_data` for a matched record: overwrite
`current_stage` when the directory stage is truthy and `sequoia_id` when
the directory id is truthy. -/
def mergeEntry (c : CompanyRecord) (e : DirEntry) : CompanyRecord :=
  let c1 := if pyTruthyS e.stage then { c with current_stage := e.stage } else c
  if pyTruthyS e.sequoia_id then { c1 with sequoia_id := e.sequoia_id } else c1

/-- `merge_directory_data` of src/parse/directory.py: the record list is
mutated in place and returned; each record whose slug has a directory entry
(row dicts are non-empty, hence truthy) receives the two overwrites. -/
def merge_directory_data (companies : List CompanyRecord)
    (directory : String → Option DirEntry) : List CompanyRecord :=
  companies.map fun c =>
    match directory c.slug with
    | some e => mergeEntry c e
    | none => c

/-- Equality of every Company Record field other than `current_stage` and
`sequoia_id`. -/
def FrameEq (c c' : CompanyRecord) : Prop :=
  c'.id = c.id ∧ c'.name = c.name ∧ c'.slug = c.slug ∧
  c'.description = c.description ∧ c'.website = c.website ∧
  c'.socials = c.socials ∧ c'.categories = c.categories ∧
  c'.first_partnered_year = c.first_partnered_year ∧
  c'.partners = c.partners ∧ c'.primary_partner = c.primary_partner ∧
  c'.milestones = c.milestones ∧ c'.team = c.team ∧
  c'.why_partnered = c.why_partnered ∧ c'.source_urls = c.source_urls

/-- The per-record contract of the directory merge. -/
def MergeRel (directory : String → Option DirEntry) (c c' : CompanyRecord) : Prop :=
  (directory c.slug = none → c' = c) ∧
  (∀ e, directory c.slug = some e →
    (e.stage.isSome → c'.current_stage = e.stage) ∧
    (e.stage = none → c'.current_stage = c.current_stage) ∧
    (e.sequoia_id.isSome → c'.sequoia_id = e.sequoia_id) ∧
    (e.sequoia_id = none → c'.sequoia_id = c.sequoia_id) ∧
    FrameEq c c') ∧
  (c.current_stage.isSome → c'.current_stage.isSome) ∧
  (c.sequoia_id.isSome → c'.sequoia_id.isSome)

theorem pyTruthyS_eq_isSome {o : Option String} (h : o ≠ some "") :
    pyTruthyS o = o.isSome := by
  cases o with
  | none => rfl
  | some s =>
    have hs : s ≠ "" := fun he => h (by rw [he])
    simp [pyTruthyS, hs]

theorem mergeEntry_spec (c : CompanyRecord) (e : DirEntry)
    (hs : e.stage ≠ some "") (hid : e.sequoia_id ≠ some "") :
    (e.stage.isSome → (mergeEntry c e).current_stage = e.stage) ∧
    (e.stage = none → (mergeEntry c e).current_stage = c.current_stage) ∧
    (e.sequoia_id.isSome → (mergeEntry c e).sequoia_id = e.sequoia_id) ∧
    (e.sequoia_id = none → (mergeEntry c e).sequoia_id = c.sequoia_id) ∧
    FrameEq c (mergeEntry c e) ∧
    (c.current_stage.isSome → (mergeEntry c e).current_stage.isSome) ∧
    (c.sequoia_id.isSome → (mergeEntry c e).sequoia_id.isSome) := by
  cases hstage : e.stage with
  | none =>
    cases hsid : e.sequoia_id with
    | none => unfold mergeEntry FrameEq; simp [hstage, hsid, pyTruthyS]
    | some v =>
      have hv : (v == "") = false := by
        have : v ≠ "" := fun h => hid (by rw [hsid, h])
        simpa using this
      unfold mergeEntry FrameEq
      simp [hstage, hsid, pyTruthyS, hv]
  | some s =>
    have hsv : (s == "") = false := by
      have : s ≠ "" := fun h => hs (by rw [hstage, h])
      simpa using this
    cases hsid : e.sequoia_id with
    | none => unfold mergeEntry FrameEq; simp [hstage, hsid, pyTruthyS, hsv]
    | some v =>
      have hv : (v == "") = false := by
        have : v ≠ "" := fun h => hid (by rw [hsid, h])
        simpa using this
      unfold mergeEntry FrameEq
      simp [hstage, hsid, pyTruthyS, hsv, hv]

/-- C1: merging directory data overwrites `current_stage` exactly when the
directory's normalized stage is non-null and `sequoia_id` exactly when the
directory id is non-null, changes no other field, leaves every record
without a matching directory entry unchanged, never replaces a set value
with null, and preserves the batch's length.  Directory entries are
well-formed: stages come from `normalize_stage` and ids from
`cell_text or None`, so neither field is ever the truthiness edge case
`some ""`. -/
theorem C1_merge_directory_contract
    (companies : List CompanyRecord) (directory : String → Option DirEntry)
    (hwf : ∀ s e, directory s = some e → e.stage ≠ some "" ∧ e.sequoia_id ≠ some "") :
    (merge_directory_data companies directory).length = companies.length ∧
    List.Forall₂ (MergeRel directory) companies
      (merge_directory_data companies directory) := by
  have hrel : ∀ c ∈ companies, MergeRel directory c
      (match directory c.slug with
        | some e => mergeEntry c e
        | none => c) := by
    intro c _
    unfold MergeRel
    cases hd : directory c.slug with
    | none =>
      refine ⟨fun _ => rfl, ?_, fun h => h, fun h => h⟩
      intro e he
      exact absurd he (by simp)
    | some e0 =>
      obtain ⟨hs, hsid⟩ := hwf c.slug e0 hd
      have hm := mergeEntry_spec c e0 hs hsid
      refine ⟨fun h => absurd h (by simp), ?_, hm.2.2.2.2.2.1, hm.2.2.2.2.2.2⟩
      intro e he
      have he' : e0 = e := Option.some.inj he
      subst he'
      exact ⟨hm.1, hm.2.1, hm.2.2.1, hm.2.2.2.1, hm.2.2.2.2.1⟩
  have hf2 : List.Forall₂ (MergeRel directory) companies
      (merge_directory_data companies directory) := by
    unfold merge_directory_data
    rw [List.forall₂_map_right_iff]
    rw [List.forall₂_same]
    exact fun c hc => hrel c hc
  exact ⟨hf2.length_eq.symm, hf2⟩

/-- Concrete record, entry and directory for the C1 witness. -/
def exCompanyC1 : CompanyRecord :=
  { id := "sequoia:acme", sequoia_id := none, name := "Acme", slug := "acme",
    description := none, website := none, socials := [], categories := [],
    current_stage := some "ipo", first_partnered_year := none, partners := [],
    primary_partner := none, milestones := {}, team := [], why_partnered := none,
    source_urls := { directory := DIRECTORY_BASE,
                     profile := "https://sequoiacap.com/companies/acme/" } }

def exEntryC1 : DirEntry :=
  { sequoia_id := some "218", name := "Acme", stage_raw := "Growth",
    stage := normalize_stage (some "Growth"), partners_raw := "",
    first_partnered_raw := "2014" }

def exDirectoryC1 : String → Option DirEntry :=
  fun s => if s == "acme" then some exEntryC1 else none

/-- Witness for C1: the well-formedness hypothesis discharged at a concrete
one-record batch and one-entry directory. -/
theorem C1_witness :
    List.Forall₂ (MergeRel exDirectoryC1) [exCompanyC1]
      (merge_directory_data [exCompanyC1] exDirectoryC1) :=
  (C1_merge_directory_contract [exCompanyC1] exDirectoryC1 (by
    intro s e h
    unfold exDirectoryC1 at h
    split at h
    · refine ⟨?_, ?_⟩
      · injection h with h2
        rw [← h2]
        decide
      · injection h with h2
        rw [← h2]
        decide
    · exact absurd h (by simp))).2

/-! ## src/crawl/fetcher.py -/

/-- The persistent state of `ContentCache`: the hash index
(`content_hashes.json`, slug to hex digest) and the HTML blob store
(one `.cache/html/{slug}.html` file per slug). -/
structure ContentCache where
  hashes : List (String × String)
  blobs : List (String × String)
deriving DecidableEq

/-- `ContentCache.get_cached_html`: the stored blob if its file exists. -/
def getCachedHtml (c : ContentCache) (slug : String) : Option String :=
  alGet c.blobs slug

/-- `ContentCache.update`: store the content hash and the HTML blob; the
external sha256 appears as the explicit `hashFn` parameter. -/
def cacheUpdate (hashFn : String → String) (c : ContentCache)
    (slug html : String) : ContentCache :=
  { hashes := alSet c.hashes slug (hashFn html),
    blobs := alSet c.blobs slug html }

/-- The cache-hit test inside the `fetch_pages` loop: a stored blob counts
only when the hash index also holds a truthy entry for the slug. -/
def cacheHit (c : ContentCache) (slug : String) : Option String :=
  match getCachedHtml c slug with
  | some blob => if pyTruthyS (alGet c.hashes slug) then some blob else none
  | none => none

/-- The evolving state of the `fetch_pages` loop: the result mapping, the
cache when one was supplied, and the slugs for which `fetch_company_page`
was called (retries, backoff and the rate-limit sleep happen inside that
call and do not change the mapping). -/
structure FetchState where
  results : List (String × String)
  cache : Option ContentCache
  requested : List String
deriving DecidableEq

/-- The cache-miss path of one loop iteration: call `fetch_company_page`
(whose per-slug outcome within one run is the `oracle` parameter; `none`
means retries exhausted or a non-retryable failure) and, on success, record
the page and overwrite the cache's hash and blob. -/
def fetchFresh (oracle : String → Option String) (hashFn : String → String)
    (st : FetchState) (slug : String) : FetchState :=
  match oracle slug with
  | some html =>
    { results := alSet st.results slug html,
      cache := match st.cache with
        | some c => some (cacheUpdate hashFn c slug html)
        | none => none,
      requested := st.requested ++ [slug] }
  | none => { st with requested := st.requested ++ [slug] }

/-- One iteration of the `fetch_pages` loop of src/crawl/fetcher.py. -/
def fetchStep (oracle : String → Option String) (hashFn : String → String)
    (st : FetchState) (slug : String) : FetchState :=
  match st.cache with
  | some c =>
    match cacheHit c slug with
    | some blob => { st with results := alSet st.results slug blob }
    | none => fetchFresh oracle hashFn st slug
  | none => fetchFresh oracle hashFn st slug

/-- `fetch_pages` of src/crawl/fetcher.py (the final `cache.save()` only
persists the state already reached). -/
def fetch_pages (oracle : String → Option String) (hashFn : String → String)
    (slugs : List String) (cache : Option ContentCache) : FetchState :=
  slugs.foldl (fetchStep oracle hashFn)
    { results := [], cache := cache, requested := [] }

theorem cacheHit_congr {c c' : ContentCache} {sl : String}
    (hb : alGet c'.blobs sl = alGet c.blobs sl)
    (hh : alGet c'.hashes sl = alGet c.hashes sl) :
    cacheHit c' sl = cacheHit c sl := by
  unfold cacheHit getCachedHtml
  rw [hb, hh]

theorem cacheUpdate_ne {hashFn : String → String} {c : ContentCache}
    {s' sl html : String} (hne : s' ≠ sl) :
    alGet (cacheUpdate hashFn c s' html).blobs sl = alGet c.blobs sl ∧
    alGet (cacheUpdate hashFn c s' html).hashes sl = alGet c.hashes sl := by
  unfold cacheUpdate
  exact ⟨alGet_alSet_ne _ _ _ _ hne, alGet_alSet_ne _ _ _ _ hne⟩

theorem fetchFresh_eq_some {oracle : String → Option String}
    {hashFn : String → String} {st : FetchState} {s' html : String}
    (ho : oracle s' = some html) :
    fetchFresh oracle hashFn st s' =
      { results := alSet st.results s' html,
        cache := match st.cache with
          | some c => some (cacheUpdate hashFn c s' html)
          | none => none,
        requested := st.requested ++ [s'] } := by
  unfold fetchFresh
  rw [ho]

theorem fetchFresh_eq_none {oracle : String → Option String}
    {hashFn : String → String} {st : FetchState} {s' : String}
    (ho : oracle s' = none) :
    fetchFresh oracle hashFn st s' = { st with requested := st.requested ++ [s'] } := by
  unfold fetchFresh
  rw [ho]

theorem fetchStep_eq_hit {oracle : String → Option String}
    {hashFn : String → String} {st : FetchState} {s' blob : String}
    {c : ContentCache} (hc : st.cache = some c) (hhit : cacheHit c s' = some blob) :
    fetchStep oracle hashFn st s' = { st with results := alSet st.results s' blob } := by
  unfold fetchStep
  rw [hc]
  dsimp only
  rw [hhit]

theorem fetchStep_eq_miss {oracle : String → Option String}
    {hashFn : String → String} {st : FetchState} {s' : String}
    {c : ContentCache} (hc : st.cache = some c) (hhit : cacheHit c s' = none) :
    fetchStep oracle hashFn st s' = fetchFresh oracle hashFn st s' := by
  unfold fetchStep
  rw [hc]
  dsimp only
  rw [hhit]

/-- Any step keeps the cache present and, for a slug other than the one
processed, keeps that slug's blob and hash lookups. -/
theorem fetchStep_cache_entries {oracle : String → Option String}
    {hashFn : String → String} {st : FetchState} {s' sl : String}
    {c : ContentCache} (hc : st.cache = some c) (hne : s' ≠ sl) :
    ∃ c₂, (fetchStep oracle hashFn st s').cache = some c₂ ∧
      alGet c₂.blobs sl = alGet c.blobs sl ∧
      alGet c₂.hashes sl = alGet c.hashes sl := by
  cases hhit : cacheHit c s' with
  | some blob =>
    rw [fetchStep_eq_hit hc hhit]
    exact ⟨c, hc, rfl, rfl⟩
  | none =>
    rw [fetchStep_eq_miss hc hhit]
    cases ho : oracle s' with
    | some html =>
      rw [fetchFresh_eq_some ho]
      refine ⟨cacheUpdate hashFn c s' html, ?_, cacheUpdate_ne hne⟩
      simp [hc]
    | none =>
      rw [fetchFresh_eq_none ho]
      exact ⟨c, hc, rfl, rfl⟩

theorem fetchStep_eq_nocache {oracle : String → Option String}
    {hashFn : String → String} {st : FetchState} {s' : String}
    (hc : st.cache = none) :
    fetchStep oracle hashFn st s' = fetchFresh oracle hashFn st s' := by
  unfold fetchStep
  rw [hc]

/-- The requested list of a step is the old one, or the old one with the
processed slug appended. -/
theorem fetchStep_requested {oracle : String → Option String}
    {hashFn : String → String} {st : FetchState} {s' : String} :
    (fetchStep oracle hashFn st s').requested = st.requested ∨
    (fetchStep oracle hashFn st s').requested = st.requested ++ [s'] := by
  cases hc : st.cache with
  | none =>
    rw [fetchStep_eq_nocache hc]
    cases ho : oracle s' with
    | some html => right; rw [fetchFresh_eq_some ho]
    | none => right; rw [fetchFresh_eq_none ho]
  | some c =>
    cases hhit : cacheHit c s' with
    | some blob => left; rw [fetchStep_eq_hit hc hhit]
    | none =>
      rw [fetchStep_eq_miss hc hhit]
      cases ho : oracle s' with
      | some html => right; rw [fetchFresh_eq_some ho]
      | none => right; rw [fetchFresh_eq_none ho]

theorem fetchStep_requested_sub {oracle : String → Option String}
    {hashFn : String → String} {st : FetchState} {s' : String} :
    st.requested ⊆ (fetchStep oracle hashFn st s').requested := by
  rcases @fetchStep_requested oracle hashFn st s' with h | h
  · rw [h]; exact fun x hx => hx
  · rw [h]; exact List.subset_append_left _ _

theorem fetch_loop_requested_sub {oracle : String → Option String}
    {hashFn : String → String} :
    ∀ (slugs : List String) (st : FetchState),
      st.requested ⊆ (slugs.foldl (fetchStep oracle hashFn) st).requested := by
  intro slugs
  induction slugs with
  | nil => intro st; exact fun x hx => hx
  | cons s' rest ih =>
    intro st
    rw [List.foldl_cons]
    exact fun x hx => ih _ (fetchStep_requested_sub hx)

theorem fetchStep_results_ne {oracle : String → Option String}
    {hashFn : String → String} {st : FetchState} {s' sl : String}
    (hne : s' ≠ sl) :
    alGet (fetchStep oracle hashFn st s').results sl = alGet st.results sl := by
  have hfresh : alGet (fetchFresh oracle hashFn st s').results sl = alGet st.results sl := by
    cases ho : oracle s' with
    | some html => rw [fetchFresh_eq_some ho]; exact alGet_alSet_ne _ _ _ _ hne
    | none => rw [fetchFresh_eq_none ho]
  cases hc : st.cache with
  | none => rw [fetchStep_eq_nocache hc]; exact hfresh
  | some c =>
    cases hhit : cacheHit c s' with
    | some blob => rw [fetchStep_eq_hit hc hhit]; exact alGet_alSet_ne _ _ _ _ hne
    | none => rw [fetchStep_eq_miss hc hhit]; exact hfresh

theorem fetchStep_hit_inv {oracle : String → Option String}
    {hashFn : String → String} {st : FetchState} {s' sl b : String}
    {c : ContentCache} (hc : st.cache = some c) (hh : cacheHit c sl = some b) :
    ∃ c', (fetchStep oracle hashFn st s').cache = some c' ∧ cacheHit c' sl = some b := by
  by_cases hne : s' = sl
  · subst hne
    rw [fetchStep_eq_hit hc hh]
    exact ⟨c, hc, hh⟩
  · obtain ⟨c₂, hc₂, hb₂, hh₂⟩ := fetchStep_cache_entries hc hne
    exact ⟨c₂, hc₂, by rw [cacheHit_congr hb₂ hh₂]; exact hh⟩

/-- Loop invariant for a slug that hits the cache: its cached blob ends up
in the results, it is never requested, and an already-recorded result
persists. -/
theorem fetch_loop_hit {oracle : String → Option String}
    {hashFn : String → String} {sl b : String} :
    ∀ (slugs : List String) (st : FetchState) (c : ContentCache),
      st.cache = some c → cacheHit c sl = some b → sl ∉ st.requested →
      (sl ∈ slugs →
        alGet (slugs.foldl (fetchStep oracle hashFn) st).results sl = some b) ∧
      sl ∉ (slugs.foldl (fetchStep oracle hashFn) st).requested ∧
      (alGet st.results sl = some b →
        alGet (slugs.foldl (fetchStep oracle hashFn) st).results sl = some b) := by
  intro slugs
  induction slugs with
  | nil =>
    intro st c _ _ hr
    exact ⟨fun hmem => absurd hmem (by simp), hr, fun hres => hres⟩
  | cons s' rest ih =>
    intro st c hc hh hr
    rw [List.foldl_cons]
    obtain ⟨c', hc', hh'⟩ := fetchStep_hit_inv hc hh
    have hr' : sl ∉ (fetchStep oracle hashFn st s').requested := by
      by_cases hne : s' = sl
      · subst hne
        rw [fetchStep_eq_hit hc hh]
        exact hr
      · rcases @fetchStep_requested oracle hashFn st s' with hreq | hreq
        · rw [hreq]; exact hr
        · rw [hreq]
          intro hmem
          rcases List.mem_append.mp hmem with h1 | h1
          · exact hr h1
          · have : sl = s' := by simpa using h1
            exact hne this.symm
    obtain ⟨g1, g2, g3⟩ := ih (fetchStep oracle hashFn st s') c' hc' hh' hr'
    refine ⟨?_, g2, ?_⟩
    · intro hmem
      rcases List.mem_cons.mp hmem with h1 | h1
      · apply g3
        rw [h1] at hh ⊢
        rw [fetchStep_eq_hit hc hh]
        exact alGet_alSet_self _ _ _
      · exact g1 h1
    · intro hres
      apply g3
      by_cases hne : s' = sl
      · subst hne
        rw [fetchStep_eq_hit hc hh]
        exact alGet_alSet_self _ _ _
      · rw [fetchStep_results_ne hne]
        exact hres

/-- Loop invariant for a slug whose hash entry is falsy: it is fetched over
the network (a blob alone is not a cache hit). -/
theorem fetch_loop_nohash {oracle : String → Option String}
    {hashFn : String → String} {sl : String} :
    ∀ (slugs : List String) (st : FetchState) (c : ContentCache),
      st.cache = some c → pyTruthyS (alGet c.hashes sl) = false →
      sl ∈ slugs → sl ∈ (slugs.foldl (fetchStep oracle hashFn) st).requested := by
  intro slugs
  induction slugs with
  | nil => intro st c _ _ hmem; exact absurd hmem (by simp)
  | cons s' rest ih =>
    intro st c hc hhash hmem
    rw [List.foldl_cons]
    by_cases hne : s' = sl
    · subst hne
      have hhit : cacheHit c s' = none := by
        unfold cacheHit getCachedHtml
        cases alGet c.blobs s' with
        | none => rfl
        | some blob => simp [hhash]
      have hreq : s' ∈ (fetchStep oracle hashFn st s').requested := by
        rw [fetchStep_eq_miss hc hhit]
        cases ho : oracle s' with
        | some html => rw [fetchFresh_eq_some ho]; simp
        | none => rw [fetchFresh_eq_none ho]; simp
      exact fetch_loop_requested_sub rest _ hreq
    · rcases List.mem_cons.mp hmem with h1 | h1
      · exact absurd h1.symm hne
      · obtain ⟨c₂, hc₂, hb₂, hh₂⟩ := fetchStep_cache_entries hc hne
        exact ih _ c₂ hc₂ (by rw [hh₂]; exact hhash) h1

/-- One step preserves the after-fetch state of a slug: hash and blob
overwritten with the fetched page, page recorded in the results. -/
theorem fetchStep_after_fetch {oracle : String → Option String}
    {hashFn : String → String} {sl h : String} (horacle : oracle sl = some h)
    {st : FetchState} {s'' : String} {c : ContentCache}
    (hc : st.cache = some c)
    (hhash : alGet c.hashes sl = some (hashFn h))
    (hblob : alGet c.blobs sl = some h)
    (hres : alGet st.results sl = some h) :
    ∃ c₂, (fetchStep oracle hashFn st s'').cache = some c₂ ∧
      alGet c₂.hashes sl = some (hashFn h) ∧ alGet c₂.blobs sl = some h ∧
      alGet (fetchStep oracle hashFn st s'').results sl = some h := by
  by_cases hne : s'' = sl
  · subst hne
    cases hhit : cacheHit c s'' with
    | some blob =>
      have hblobeq : blob = h := by
        unfold cacheHit getCachedHtml at hhit
        rw [hblob] at hhit
        dsimp only at hhit
        by_cases ht : pyTruthyS (alGet c.hashes s'') = true
        · rw [if_pos ht] at hhit
          exact (Option.some.inj hhit).symm
        · rw [if_neg ht] at hhit
          cases hhit
      rw [fetchStep_eq_hit hc hhit]
      refine ⟨c, hc, hhash, hblob, ?_⟩
      rw [alGet_alSet_self, hblobeq]
    | none =>
      rw [fetchStep_eq_miss hc hhit, fetchFresh_eq_some horacle]
      refine ⟨cacheUpdate hashFn c s'' h, by simp [hc], ?_, ?_, ?_⟩
      · exact alGet_alSet_self _ _ _
      · exact alGet_alSet_self _ _ _
      · exact alGet_alSet_self _ _ _
  · obtain ⟨c₂, hc₂, hb₂, hh₂⟩ := fetchStep_cache_entries hc hne
    exact ⟨c₂, hc₂, by rw [hh₂]; exact hhash, by rw [hb₂]; exact hblob,
      by rw [fetchStep_results_ne hne]; exact hres⟩

theorem fetch_loop_after_fetch {oracle : String → Option String}
    {hashFn : String → String} {sl h : String} (horacle : oracle sl = some h) :
    ∀ (slugs : List String) (st : FetchState) (c : ContentCache),
      st.cache = some c →
      alGet c.hashes sl = some (hashFn h) →
      alGet c.blobs sl = some h →
      alGet st.results sl = some h →
      ∃ c', (slugs.foldl (fetchStep oracle hashFn) st).cache = some c' ∧
        alGet c'.hashes sl = some (hashFn h) ∧ alGet c'.blobs sl = some h ∧
        alGet (slugs.foldl (fetchStep oracle hashFn) st).results sl = some h := by
  intro slugs
  induction slugs with
  | nil => intro st c hc h1 h2 h3; exact ⟨c, hc, h1, h2, h3⟩
  | cons s'' rest ih =>
    intro st c hc h1 h2 h3
    rw [List.foldl_cons]
    obtain ⟨c₂, hc₂, g1, g2, g3⟩ := fetchStep_after_fetch horacle hc h1 h2 h3
    exact ih _ c₂ hc₂ g1 g2 g3

/-- Loop invariant for a slug that misses the cache and fetches
successfully: hash and blob are overwritten and the page recorded. -/
theorem fetch_loop_fresh {oracle : String → Option String}
    {hashFn : String → String} {sl h : String} (horacle : oracle sl = some h) :
    ∀ (slugs : List String) (st : FetchState) (c : ContentCache),
      st.cache = some c → cacheHit c sl = none → sl ∈ slugs →
      ∃ c', (slugs.foldl (fetchStep oracle hashFn) st).cache = some c' ∧
        alGet c'.hashes sl = some (hashFn h) ∧ alGet c'.blobs sl = some h ∧
        alGet (slugs.foldl (fetchStep oracle hashFn) st).results sl = some h := by
  intro slugs
  induction slugs with
  | nil => intro st c _ _ hmem; exact absurd hmem (by simp)
  | cons s' rest ih =>
    intro st c hc hhit hmem
    rw [List.foldl_cons]
    by_cases hne : s' = sl
    · subst hne
      rw [fetchStep_eq_miss hc hhit, fetchFresh_eq_some horacle]
      refine fetch_loop_after_fetch horacle rest _ (cacheUpdate hashFn c s' h)
        (by simp [hc]) ?_ ?_ ?_
      · exact alGet_alSet_self _ _ _
      · exact alGet_alSet_self _ _ _
      · exact alGet_alSet_self _ _ _
    · rcases List.mem_cons.mp hmem with h1 | h1
      · exact absurd h1.symm hne
      · obtain ⟨c₂, hc₂, hb₂, hh₂⟩ := fetchStep_cache_entries hc hne
        exact ih _ c₂ hc₂ (by rw [cacheHit_congr hb₂ hh₂]; exact hhit) h1

/-- C7: in `fetch_pages` with a cache supplied, a slug whose cache holds
both a blob and a truthy hash entry gets the cached blob in the result and
is never requested over the network; a blob without a hash entry is not a
cache hit, so the slug is fetched; and after a cache miss with a successful
fetch, the cache's hash and blob for the slug are overwritten with the
fetched page (no change-detection guard), and the page is in the result. -/
theorem C7_fetch_pages_cache_contract
    (oracle : String → Option String) (hashFn : String → String)
    (slugs : List String) (c0 : ContentCache) (sl : String) :
    (∀ b, alGet c0.blobs sl = some b → pyTruthyS (alGet c0.hashes sl) = true →
      sl ∈ slugs →
      alGet (fetch_pages oracle hashFn slugs (some c0)).results sl = some b ∧
      sl ∉ (fetch_pages oracle hashFn slugs (some c0)).requested) ∧
    ((alGet c0.blobs sl).isSome → pyTruthyS (alGet c0.hashes sl) = false →
      sl ∈ slugs → sl ∈ (fetch_pages oracle hashFn slugs (some c0)).requested) ∧
    (∀ h, cacheHit c0 sl = none → oracle sl = some h → sl ∈ slugs →
      ∃ c', (fetch_pages oracle hashFn slugs (some c0)).cache = some c' ∧
        alGet c'.hashes sl = some (hashFn h) ∧ alGet c'.blobs sl = some h ∧
        alGet (fetch_pages oracle hashFn slugs (some c0)).results sl = some h) := by
  refine ⟨?_, ?_, ?_⟩
  · intro b hb ht hmem
    have hh : cacheHit c0 sl = some b := by
      unfold cacheHit getCachedHtml
      rw [hb]
      dsimp only
      rw [if_pos ht]
    have hres := @fetch_loop_hit oracle hashFn sl b slugs
      { results := [], cache := some c0, requested := [] } c0 rfl hh (by simp)
    exact ⟨hres.1 hmem, hres.2.1⟩
  · intro _ hf hmem
    exact fetch_loop_nohash slugs _ c0 rfl hf hmem
  · intro h hhit horacle hmem
    exact fetch_loop_fresh horacle slugs _ c0 rfl hhit hmem

/-- Concrete oracle, hash function and cache for the C7 witness: slug "a"
is fully cached, "b" has a blob but no hash entry, "c" is uncached. -/
def exOracleC7 : String → Option String := fun s =>
  if s == "b" then some "HB" else if s == "c" then some "HC" else none

def exHashFnC7 : String → String := fun s => "#" ++ s

def exCacheC7 : ContentCache :=
  { hashes := [("a", "ha")], blobs := [("a", "BA"), ("b", "BB")] }

/-- Witness for C7: the three parts applied at the concrete run over
["a", "b", "c"]. -/
theorem C7_witness :
    (alGet (fetch_pages exOracleC7 exHashFnC7 ["a", "b", "c"]
        (some exCacheC7)).results "a" = some "BA" ∧
      "a" ∉ (fetch_pages exOracleC7 exHashFnC7 ["a", "b", "c"]
        (some exCacheC7)).requested) ∧
    "b" ∈ (fetch_pages exOracleC7 exHashFnC7 ["a", "b", "c"]
      (some exCacheC7)).requested ∧
    (∃ c', (fetch_pages exOracleC7 exHashFnC7 ["a", "b", "c"]
        (some exCacheC7)).cache = some c' ∧
      alGet c'.hashes "c" = some (exHashFnC7 "HC") ∧
      alGet c'.blobs "c" = some "HC" ∧
      alGet (fetch_pages exOracleC7 exHashFnC7 ["a", "b", "c"]
        (some exCacheC7)).results "c" = some "HC") :=
  ⟨(C7_fetch_pages_cache_contract exOracleC7 exHashFnC7 ["a", "b", "c"]
      exCacheC7 "a").1 "BA" (by decide) (by decide) (by decide),
   (C7_fetch_pages_cache_contract exOracleC7 exHashFnC7 ["a", "b", "c"]
      exCacheC7 "b").2.1 (by decide) (by decide) (by decide),
   (C7_fetch_pages_cache_contract exOracleC7 exHashFnC7 ["a", "b", "c"]
      exCacheC7 "c").2.2 "HC" (by decide) (by decide) (by decide)⟩

/-! ## src/validate/postbuild.py -/

/-- Python `str.endswith` on strings. -/
def endsWithS (s suf : String) : Bool := suf.toList.isSuffixOf s.toList

/-- Outcome of reading and JSON-parsing one file. -/
inductive FileRead (α : Type) where
  | missing : FileRead α
  | unreadable (msg : String) : FileRead α
  | parsed (val : α) : FileRead α
deriving DecidableEq

/-- The facets of meta.json that `validate_build` reads: presence of the
two string fields and the value of `total_companies` (`none` = field
absent; the builder always writes an integer, read by `meta.get` with
default 0). -/
structure MetaData where
  hasLastUpdated : Bool
  hasSchemaVersion : Bool
  totalCompanies : Option Int
deriving DecidableEq

/-- A build directory as `validate_build` observes it: the outcome of
reading meta.json, the present subdirectories with their file listings
(`os.path.isdir` / `os.listdir` / per-file `os.path.isfile`), and the
outcome of reading companies/all.json (`parsed none` = valid JSON that is
not a list; `parsed (some entries)` = a list whose entries carry
`c.get("slug", "")`).  Each field is the result of one independent
filesystem interaction. -/
structure BuildDir where
  meta : FileRead MetaData
  dirs : List (String × List String)
  allJson : FileRead (Option (List String))
deriving DecidableEq

def REQUIRED_SUBDIRS : List String :=
  ["companies", "stages", "categories", "partners", "first-partnered"]

def MIN_COMPANIES : Int := 100

/-- Check 2 of `validate_build`: required meta fields present. -/
def metaFieldErrors (meta : MetaData) : List String :=
  (if meta.hasLastUpdated then [] else ["meta.json missing field: last_updated_iso"]) ++
  (if meta.hasSchemaVersion then [] else ["meta.json missing field: schema_version"]) ++
  (if meta.totalCompanies.isSome then [] else ["meta.json missing field: total_companies"])

/-- Check 3 of `validate_build`: company count above the minimum. -/
def thresholdErrors (meta : MetaData) : List String :=
  if meta.totalCompanies.getD 0 < MIN_COMPANIES then
    ["total_companies=" ++ toString (meta.totalCompanies.getD 0) ++
      " is below minimum threshold (" ++ toString MIN_COMPANIES ++ ")"]
  else []

/-- Check 4 of `validate_build` for one required subdirectory: present and
holding at least one .json file. -/
def subdirErrors (bd : BuildDir) (name : String) : List String :=
  match alGet bd.dirs name with
  | none => ["Missing directory: " ++ name ++ "/"]
  | some files =>
    if (files.filter (fun f => endsWithS f ".json")).isEmpty then
      ["Empty directory: " ++ name ++ "/"]
    else []

/-- Check 5 of `validate_build`: companies/all.json exists and is a list of
at least `MIN_COMPANIES` entries. -/
def allJsonErrors (bd : BuildDir) : List String :=
  match bd.allJson with
  | .missing => ["companies/all.json not found"]
  | .unreadable m => ["companies/all.json unreadable: " ++ m]
  | .parsed none => ["companies/all.json has 0 entries, expected >= " ++ toString MIN_COMPANIES]
  | .parsed (some entries) =>
    if entries.length < 100 then
      ["companies/all.json has " ++ toString entries.length ++
        " entries, expected >= " ++ toString MIN_COMPANIES]
    else []

/-- Check 6 of `validate_build` (spot-check), which runs only when all.json
parsed as a list and no earlier error was recorded; a parse failure in this
block is swallowed (`except: pass`), which cannot occur once `errs = []`. -/
def spotErrors (bd : BuildDir) (errs : List String) : List String :=
  match bd.allJson, errs with
  | .parsed (some entries), [] =>
    let missing := (entries.filter (fun s =>
      !(((alGet bd.dirs "companies").getD []).contains (s ++ ".json")))).length
    if missing > 0 then
      [toString missing ++ " company slug files missing from companies/"]
    else []
  | _, _ => []

/-- `validate_build` of src/validate/postbuild.py. -/
def validate_build (bd : BuildDir) : List String :=
  match bd.meta with
  | .missing => ["meta.json not found"]
  | .unreadable m => ["meta.json unreadable: " ++ m]
  | .parsed meta =>
    let errs := metaFieldErrors meta ++ thresholdErrors meta ++
      REQUIRED_SUBDIRS.foldl (fun acc name => acc ++ subdirErrors bd name) [] ++
      allJsonErrors bd
    errs ++ spotErrors bd errs

/-- `main` of src/validate/postbuild.py: exit 1 when the build-dir argument
is missing, the directory does not exist, or validation reports any error;
exit 0 otherwise. -/
def postbuildMain (argSupplied : Bool) (dirExists : Bool) (bd : BuildDir) : Nat :=
  if !argSupplied then 1
  else if !dirExists then 1
  else if (validate_build bd).isEmpty then 0 else 1

/-- C9: post-build validation fails with a message citing the threshold
when `total_companies` is below the minimum of 100, fails citing the
missing file when companies/all.json is absent, and returns an empty error
list — with standalone exit code 0 — on a well-formed directory meeting
every check. -/
theorem C9_postbuild_validation (bd : BuildDir) :
    (∀ meta, bd.meta = .parsed meta →
      meta.totalCompanies.getD 0 < MIN_COMPANIES →
      ("total_companies=" ++ toString (meta.totalCompanies.getD 0) ++
        " is below minimum threshold (" ++ toString MIN_COMPANIES ++ ")")
          ∈ validate_build bd ∧
      validate_build bd ≠ []) ∧
    (∀ meta, bd.meta = .parsed meta → bd.allJson = .missing →
      "companies/all.json not found" ∈ validate_build bd ∧
      validate_build bd ≠ []) ∧
    (∀ meta t entries, bd.meta = .parsed meta →
      meta.hasLastUpdated = true → meta.hasSchemaVersion = true →
      meta.totalCompanies = some t → MIN_COMPANIES ≤ t →
      (∀ name ∈ REQUIRED_SUBDIRS, ∃ files, alGet bd.dirs name = some files ∧
        files.filter (fun f => endsWithS f ".json") ≠ []) →
      bd.allJson = .parsed (some entries) → 100 ≤ entries.length →
      (∀ s ∈ entries,
        (((alGet bd.dirs "companies").getD []).contains (s ++ ".json")) = true) →
      validate_build bd = [] ∧ postbuildMain true true bd = 0) := by
  refine ⟨?_, ?_, ?_⟩
  · intro meta hm hlt
    have hth : thresholdErrors meta =
        ["total_companies=" ++ toString (meta.totalCompanies.getD 0) ++
          " is below minimum threshold (" ++ toString MIN_COMPANIES ++ ")"] := by
      unfold thresholdErrors
      rw [if_pos hlt]
    have hmem : ("total_companies=" ++ toString (meta.totalCompanies.getD 0) ++
        " is below minimum threshold (" ++ toString MIN_COMPANIES ++ ")")
          ∈ validate_build bd := by
      unfold validate_build
      rw [hm]
      dsimp only
      refine List.mem_append.mpr (Or.inl ?_)
      refine List.mem_append.mpr (Or.inl ?_)
      refine List.mem_append.mpr (Or.inl ?_)
      refine List.mem_append.mpr (Or.inr ?_)
      rw [hth]
      exact List.mem_singleton.mpr rfl
    exact ⟨hmem, List.ne_nil_of_mem hmem⟩
  · intro meta hm hall
    have haj : allJsonErrors bd = ["companies/all.json not found"] := by
      unfold allJsonErrors
      rw [hall]
    have hmem : "companies/all.json not found" ∈ validate_build bd := by
      unfold validate_build
      rw [hm]
      dsimp only
      refine List.mem_append.mpr (Or.inl ?_)
      refine List.mem_append.mpr (Or.inr ?_)
      rw [haj]
      exact List.mem_singleton.mpr rfl
    exact ⟨hmem, List.ne_nil_of_mem hmem⟩
  · intro meta t entries hm h1 h2 h3 h4 hdirs hall h5 hslugs
    have h4' : (100 : Int) ≤ t := h4
    have hsub : ∀ name ∈ REQUIRED_SUBDIRS, subdirErrors bd name = [] := by
      intro name hname
      obtain ⟨files, hg, hne⟩ := hdirs name hname
      unfold subdirErrors
      rw [hg]
      exact if_neg (fun hemp => hne (List.isEmpty_iff.mp hemp))
    have he2 : metaFieldErrors meta = [] := by
      unfold metaFieldErrors
      simp [h1, h2, h3]
    have he3 : thresholdErrors meta = [] := by
      unfold thresholdErrors
      rw [h3]
      rw [if_neg (by simp only [Option.getD_some, MIN_COMPANIES]; omega)]
    have he4 : REQUIRED_SUBDIRS.foldl (fun acc name => acc ++ subdirErrors bd name) [] = [] := by
      simp only [REQUIRED_SUBDIRS, List.foldl_cons, List.foldl_nil]
      rw [hsub "companies" (by decide), hsub "stages" (by decide),
        hsub "categories" (by decide), hsub "partners" (by decide),
        hsub "first-partnered" (by decide)]
      rfl
    have he5 : allJsonErrors bd = [] := by
      unfold allJsonErrors
      rw [hall]
      dsimp only
      rw [if_neg (by omega)]
    have he6 : spotErrors bd [] = [] := by
      unfold spotErrors
      rw [hall]
      dsimp only
      have hfil : entries.filter (fun s =>
          !(((alGet bd.dirs "companies").getD []).contains (s ++ ".json"))) = [] := by
        rw [List.filter_eq_nil_iff]
        intro s hs
        rw [hslugs s hs]
        simp
      rw [hfil]
      simp
    have hval : validate_build bd = [] := by
      unfold validate_build
      rw [hm]
      dsimp only
      rw [he2, he3, he4, he5]
      simp only [List.append_nil, List.nil_append]
      exact he6
    refine ⟨hval, ?_⟩
    unfold postbuildMain
    rw [hval]
    rfl

/-- Build directories for the C9 witness: a short crawl (50 companies), a
directory without companies/all.json, and a fully well-formed one. -/
def exMeta50 : MetaData :=
  { hasLastUpdated := true, hasSchemaVersion := true, totalCompanies := some 50 }

def exMeta120 : MetaData :=
  { hasLastUpdated := true, hasSchemaVersion := true, totalCompanies := some 120 }

def exBadMetaC9 : BuildDir :=
  { meta := .parsed exMeta50, dirs := [], allJson := .missing }

def exNoAllC9 : BuildDir :=
  { meta := .parsed exMeta120, dirs := [], allJson := .missing }

def exGoodC9 : BuildDir :=
  { meta := .parsed exMeta120,
    dirs := [("companies", ["acme.json", "all.json"]), ("stages", ["ipo.json"]),
      ("categories", ["fintech.json"]), ("partners", ["jane-doe.json"]),
      ("first-partnered", ["2014.json"])],
    allJson := .parsed (some (List.replicate 100 "acme")) }

/-- Witness for C9: the three parts applied at concrete build directories. -/
theorem C9_witness :
    ("total_companies=" ++ toString (exMeta50.totalCompanies.getD 0) ++
      " is below minimum threshold (" ++ toString MIN_COMPANIES ++ ")")
        ∈ validate_build exBadMetaC9 ∧
    "companies/all.json not found" ∈ validate_build exNoAllC9 ∧
    validate_build exGoodC9 = [] ∧ postbuildMain true true exGoodC9 = 0 :=
  ⟨((C9_postbuild_validation exBadMetaC9).1 exMeta50 rfl (by decide)).1,
   ((C9_postbuild_validation exNoAllC9).2.1 exMeta120 rfl rfl).1,
   (C9_postbuild_validation exGoodC9).2.2 exMeta120 120 (List.replicate 100 "acme")
     rfl rfl rfl rfl (by decide)
     (by
       intro name hname
       simp only [REQUIRED_SUBDIRS, List.mem_cons, List.not_mem_nil,
         or_false] at hname
       rcases hname with h | h | h | h | h <;> subst h <;>
         exact ⟨_, rfl, by decide⟩)
     rfl (by simp)
     (by
       intro s hs
       have hs' : s = "acme" := List.eq_of_mem_replicate hs
       subst hs'
       decide)⟩

/-! ## src/crawl/sitemap.py -/

/-- The company-URL marker of src/crawl/sitemap.py (the source constant's
name ends in URL_PREFIX; shortened here). -/
def COMPANY_URL_PFX : String := "https://sequoiacap.com/companies/"

/-- Python `str.removeprefix` for a prefix already checked with
`startswith`. -/
def removePfx (s pre : String) : String :=
  String.mk (s.toList.drop pre.toList.length)

/-- Python `str.strip("/")`. -/
def stripSlashS (s : String) : String :=
  String.mk (stripChar (fun c => c == '/') s.toList)

/-- `_parse_slugs` of src/crawl/sitemap.py, over the `<loc>` texts of the
sitemap's `<url>` entries in document order (the external XML parsing
yields `findtext` with default "", so a `<url>` without `<loc>` contributes
the empty string, which fails the prefix test). -/
def _parse_slugs (locs : List String) : List String :=
  locs.filterMap (fun loc =>
    if startsWithS loc COMPANY_URL_PFX then
      let slug := stripSlashS (removePfx loc COMPANY_URL_PFX)
      if slug == "" then none else some slug
    else none)

/-- `fetch_company_slugs` of src/crawl/sitemap.py: the HTTP GET of the
sitemap is external; the function applies `_parse_slugs` to the fetched
body's `<loc>` sequence. -/
def fetch_company_slugs (sitemapLocs : List String) : List String :=
  _parse_slugs sitemapLocs

/-- C10: every slug produced by `_parse_slugs` (hence by
`fetch_company_slugs`) is non-empty and is obtained from a `<loc>` starting
with the company-URL marker by removing that marker and stripping
surrounding slashes; a `<loc>` whose remainder strips to nothing — the bare
marker, or the marker followed only by slashes — contributes no entry
rather than an empty slug. -/
theorem C10_parse_slugs_shape (locs : List String) :
    (∀ s ∈ _parse_slugs locs, s ≠ "" ∧
      ∃ loc ∈ locs, startsWithS loc COMPANY_URL_PFX = true ∧
        s = stripSlashS (removePfx loc COMPANY_URL_PFX)) ∧
    fetch_company_slugs locs = _parse_slugs locs ∧
    (∀ loc rest, (startsWithS loc COMPANY_URL_PFX = true →
        stripSlashS (removePfx loc COMPANY_URL_PFX) = "") →
      _parse_slugs (loc :: rest) = _parse_slugs rest) := by
  refine ⟨?_, rfl, ?_⟩
  · intro s hs
    obtain ⟨loc, hloc, hf⟩ := List.mem_filterMap.mp hs
    by_cases hst : startsWithS loc COMPANY_URL_PFX = true
    · rw [if_pos hst] at hf
      dsimp only at hf
      by_cases hemp : (stripSlashS (removePfx loc COMPANY_URL_PFX) == "") = true
      · rw [if_pos hemp] at hf
        cases hf
      · rw [if_neg hemp] at hf
        have hse : stripSlashS (removePfx loc COMPANY_URL_PFX) = s :=
          Option.some.inj hf
        have hne : stripSlashS (removePfx loc COMPANY_URL_PFX) ≠ "" := by
          simpa using hemp
        exact ⟨hse ▸ hne, loc, hloc, hst, hse.symm⟩
    · rw [if_neg hst] at hf
      cases hf
  · intro loc rest himp
    by_cases hst : startsWithS loc COMPANY_URL_PFX = true
    · have hempty := himp hst
      simp [_parse_slugs, List.filterMap_cons, hst, hempty]
    · have hst' : startsWithS loc COMPANY_URL_PFX = false := by simpa using hst
      simp [_parse_slugs, List.filterMap_cons, hst']

/-- Witness for C10: the shape part applied to the slug extracted from a
concrete sitemap entry, and the no-entry part applied to the bare marker. -/
theorem C10_witness :
    (("stripe" : String) ≠ "" ∧
      ∃ loc ∈ [COMPANY_URL_PFX ++ "stripe/"],
        startsWithS loc COMPANY_URL_PFX = true ∧
        "stripe" = stripSlashS (removePfx loc COMPANY_URL_PFX)) ∧
    _parse_slugs [COMPANY_URL_PFX] = _parse_slugs [] :=
  ⟨(C10_parse_slugs_shape [COMPANY_URL_PFX ++ "stripe/"]).1 "stripe" (by decide),
   (C10_parse_slugs_shape []).2.2 COMPANY_URL_PFX [] (fun _ => by decide)⟩

/-! ## run_build.py -/

/-- One per-record entry of `validate_companies` (src/validate/schema.py):
the record's slug with its error messages.  The JSON-Schema engine and the
schema file are external, so the error list reaching `main` is a parameter
of the model. -/
structure SchemaError where
  slug : String
  errors : List String
deriving DecidableEq

/-- The observable actions of `run_build.main` after the merge step. -/
inductive MainStep where
  | validateSchema : MainStep
  | reportCompleteness : MainStep
  | buildAll (outputDir : String) : MainStep
  | exitProcess (code : Nat) : MainStep
deriving DecidableEq

/-- Steps 6-8 of `run_build.main` (run_build.py): validation always runs; a
non-empty error list reaches `sys.exit(1)` before completeness reporting
and before `build_all` (so nothing is written); otherwise completeness is
reported, `build_all` writes the output tree, and the process ends
normally with status 0. -/
def mainTail (errors : List SchemaError) (outputDir : String) : List MainStep :=
  if errors.isEmpty then
    [.validateSchema, .reportCompleteness, .buildAll outputDir, .exitProcess 0]
  else
    [.validateSchema, .exitProcess 1]

/-- The process exit status of a trace: the code of its final exit action. -/
def finalExit (trace : List MainStep) : Option Nat :=
  (trace.filterMap (fun s => match s with
    | .exitProcess c => some c
    | _ => none)).getLast?

/-- C2: when schema validation returns any per-record error, the process
exits with status 1 and `build_all` is never invoked, so no output file is
written; with no errors, the build runs and the exit status is 0. -/
theorem C2_validation_gates_build (errors : List SchemaError) (out : String) :
    (errors ≠ [] →
      finalExit (mainTail errors out) = some 1 ∧
      ∀ d, MainStep.buildAll d ∉ mainTail errors out) ∧
    (errors = [] →
      finalExit (mainTail errors out) = some 0 ∧
      MainStep.buildAll out ∈ mainTail errors out) := by
  constructor
  · intro hne
    have he : errors.isEmpty = false := by
      cases errors with
      | nil => exact absurd rfl hne
      | cons a t => rfl
    unfold mainTail
    rw [if_neg (by simp [he])]
    exact ⟨rfl, fun d => by simp [finalExit]⟩
  · intro hnil
    subst hnil
    exact ⟨rfl, by simp [mainTail]⟩

/-- Witness for C2: both branches applied at concrete error lists. -/
theorem C2_witness :
    (finalExit (mainTail [{ slug := "acme", errors := ["name: required"] }] "docs")
        = some 1 ∧
      ∀ d, MainStep.buildAll d ∉
        mainTail [{ slug := "acme", errors := ["name: required"] }] "docs") ∧
    (finalExit (mainTail ([] : List SchemaError) "docs") = some 0 ∧
      MainStep.buildAll "docs" ∈ mainTail ([] : List SchemaError) "docs") :=
  ⟨(C2_validation_gates_build
      [{ slug := "acme", errors := ["name: required"] }] "docs").1 (by decide),
   (C2_validation_gates_build ([] : List SchemaError) "docs").2 rfl⟩
